import Mathlib

set_option maxRecDepth 100000

/-!
Verification development for the terminal process lifecycle manager
(`src/vs/workbench/parts/terminal/node/terminalProcess.ts`).

The class `TerminalProcess` wraps a pty handle.  Its observable behaviour is
driven by asynchronous callbacks (raw data, raw exit), by caller operations
(`shutdown`, `input`, `resize`, `dispose`) and by three timers: a 250-unit
exit-debounce `setTimeout` stored in `_closeTimeout`, a one-shot 500-unit
`setTimeout` that announces the pid, and a 200-unit `setInterval` that polls
the handle's title (whose handle the source never stores).

We embed the class as a discrete-time simulator.  Global time advances in
unit steps; at each instant, timers due at that instant fire (in creation
order) and then the environment's events for the instant are handled.  The
simulator state records the fields of the class (`_exitCode`,
`_closeTimeout`, `_currentTitle`, the four emitters' disposal flags), the
pending timers of the ambient scheduler, and a log of observable effects:
deliveries on the four event streams and the calls made on the pty handle
(`kill`, `write`, `resize`).

Two collaborators of the class are modelled from the spec because their
sources are outside the analysed tree: the event-emitter facility
(`vs/base/common/event`) — a disposed emitter delivers no further events —
and the scheduler (`setTimeout` / `clearTimeout` / `setInterval`) with its
standard semantics, including that clearing an already-fired (stale) timeout
id is a no-op and that `setInterval` re-arms itself after every tick.
-/

namespace TerminalProc

/-- Kinds of timers used by the terminal process: the exit-debounce timeout
(`_closeTimeout`), the delayed process-id notification, and the recurring
title-poll interval. -/
inductive TimerKind
  | closeT
  | pidT
  | titleT
deriving DecidableEq

/-- A pending timer of the ambient scheduler, identified by an allocation id
and carrying its absolute due instant. -/
structure Timer where
  tid : Nat
  fireAt : Nat
  kind : TimerKind
deriving DecidableEq

/-- Observable effects: deliveries on the four event streams, and the calls
made on the underlying pty handle. -/
inductive Out
  | dataEv (s : String)
  | exitEv (c : Option Int)
  | pidEv (p : Int)
  | titleEv (s : String)
  | killAct
  | writeAct (s : String)
  | resizeAct (c r : Int)
deriving DecidableEq

/-- Disposal flags of the four emitters of `TerminalProcess`.
Modelled from the spec: the event-emitter facility (`vs/base/common/event`,
whose source is outside the analysed tree) closes a stream on dispose, so a
disposed emitter delivers no further events to subscribers. -/
structure Emitters where
  dataDisp : Bool
  exitDisp : Bool
  pidDisp : Bool
  titleDisp : Bool
deriving DecidableEq

/-- The mutable fields of the `TerminalProcess` class: `_exitCode` (absent
until a raw exit is observed), `_closeTimeout` (the id of the last
exit-debounce `setTimeout`; the source never resets it, so it goes stale
after the timeout fires), `_currentTitle`, and the emitters. -/
structure TPState where
  exitCode : Option Int
  closeTimeout : Option Nat
  currentTitle : String
  em : Emitters
deriving DecidableEq

/-- Whole simulator state: current instant, next fresh timer id, pending
timers of the scheduler, the class fields, and the log of observable
effects (each stamped with the instant it happened). -/
structure Sim where
  now : Nat
  nextId : Nat
  timers : List Timer
  tp : TPState
  log : List (Nat × Out)
deriving DecidableEq

/-- The pty handle, an external collaborator: its pid and its current title
as a function of time (`ptyProcess.process` is a point-in-time read). -/
structure PtyHandle where
  pid : Int
  titleAt : Nat → String

/-- Events coming from outside the class: the raw pty callbacks and the
public operations invoked by the consumer. -/
inductive EnvEvent
  | rawData (s : String)
  | rawExit (c : Int)
  | shutdownCall
  | inputCall (s : String)
  | resizeCall (c r : Int)
  | disposeCall
deriving DecidableEq

/-- Delivery on the data stream: `this._onProcessData.fire(data)` delivers
only while the emitter is not disposed. -/
def fireData (s : Sim) (d : String) : Sim :=
  if s.tp.em.dataDisp then s else { s with log := s.log ++ [(s.now, Out.dataEv d)] }

/-- Delivery on the exit stream, carrying the current `_exitCode`. -/
def fireExit (s : Sim) : Sim :=
  if s.tp.em.exitDisp then s else { s with log := s.log ++ [(s.now, Out.exitEv s.tp.exitCode)] }

/-- Scheduler `setTimeout` / the arming half of `setInterval`: allocate a
fresh id and append a pending timer due `delay` units from now. -/
def setTimeoutSim (s : Sim) (k : TimerKind) (delay : Nat) : Sim × Nat :=
  ({ s with nextId := s.nextId + 1,
            timers := s.timers ++ [⟨s.nextId, s.now + delay, k⟩] }, s.nextId)

/-- Scheduler `clearTimeout`: drop the pending timer with the given id, a
no-op when the id is stale. -/
def clearTimeoutSim (s : Sim) (i : Nat) : Sim :=
  { s with timers := s.timers.filter fun t => decide (t.tid ≠ i) }

/-- `_queueProcessExit`: clear any pending `_closeTimeout`, then arm a fresh
250-unit exit-debounce timeout and store its id. -/
def queueProcessExit (s : Sim) : Sim :=
  let s1 := match s.tp.closeTimeout with
    | some i => clearTimeoutSim s i
    | none => s
  let p := setTimeoutSim s1 TimerKind.closeT 250
  { p.1 with tp := { p.1.tp with closeTimeout := some p.2 } }

/-- `_sendProcessId`: fire the pid emitter with the handle's pid. -/
def sendProcessId (h : PtyHandle) (s : Sim) : Sim :=
  if s.tp.em.pidDisp then s else { s with log := s.log ++ [(s.now, Out.pidEv h.pid)] }

/-- `_sendProcessTitle`: store the handle's current title into
`_currentTitle`, then fire the title emitter with it. -/
def sendProcessTitle (h : PtyHandle) (s : Sim) : Sim :=
  let t := h.titleAt s.now
  let s1 := { s with tp := { s.tp with currentTitle := t } }
  if s1.tp.em.titleDisp then s1 else { s1 with log := s1.log ++ [(s1.now, Out.titleEv t)] }

/-- Public `dispose()`: dispose the four emitters and nothing else. -/
def dispose (s : Sim) : Sim :=
  { s with tp := { s.tp with em := ⟨true, true, true, true⟩ } }

/-- Body of the `_closeTimeout` callback: kill the pty, fire the exit event
with the recorded `_exitCode`, then dispose the emitters. -/
def closeFireCb (s : Sim) : Sim :=
  dispose (fireExit { s with log := s.log ++ [(s.now, Out.killAct)] })

/-- Body of one title-poll interval tick: if `_currentTitle` differs from
the handle's current title, send the title. -/
def titleTickCb (h : PtyHandle) (s : Sim) : Sim :=
  if s.tp.currentTitle ≠ h.titleAt s.now then sendProcessTitle h s else s

/-- The raw-data handler registered in the constructor: fire the data event,
then, if `_closeTimeout` is set (possibly stale), clear it and re-queue the
debounced exit. -/
def dataHandlerCb (s : Sim) (d : String) : Sim :=
  let s1 := fireData s d
  match s1.tp.closeTimeout with
  | some i => queueProcessExit (clearTimeoutSim s1 i)
  | none => s1

/-- The raw-exit handler registered in the constructor: record the exit code
and queue the debounced exit. -/
def exitHandlerCb (s : Sim) (c : Int) : Sim :=
  queueProcessExit { s with tp := { s.tp with exitCode := some c } }

/-- Fire one due timer.  A title tick first re-arms the interval for 200
units from now (the `setInterval` contract), then runs its callback. -/
def fireOne (h : PtyHandle) (s : Sim) (t : Timer) : Sim :=
  match t.kind with
  | TimerKind.closeT => closeFireCb s
  | TimerKind.pidT => sendProcessId h s
  | TimerKind.titleT => titleTickCb h (setTimeoutSim s TimerKind.titleT 200).1

/-- Fire all timers due at the current instant, in creation order. -/
def fireDue (h : PtyHandle) (s : Sim) : Sim :=
  let due := s.timers.filter fun t => decide (t.fireAt = s.now)
  let s1 := { s with timers := s.timers.filter fun t => decide (t.fireAt ≠ s.now) }
  due.foldl (fireOne h) s1

/-- `resize` clamps both dimensions to a minimum of 1 before forwarding to
the handle (`Math.max(cols, 1)`, `Math.max(rows, 1)`). -/
def resizeArgs (cols rows : Int) : Int × Int := (max cols 1, max rows 1)

/-- Dispatch one environment event to the corresponding handler or public
method of the class. -/
def handleEnv (s : Sim) : EnvEvent → Sim
  | EnvEvent.rawData d => dataHandlerCb s d
  | EnvEvent.rawExit c => exitHandlerCb s c
  | EnvEvent.shutdownCall => queueProcessExit s
  | EnvEvent.inputCall d => { s with log := s.log ++ [(s.now, Out.writeAct d)] }
  | EnvEvent.resizeCall c r =>
      { s with log := s.log ++ [(s.now, Out.resizeAct (resizeArgs c r).1 (resizeArgs c r).2)] }
  | EnvEvent.disposeCall => dispose s

/-- One instant of simulated time: fire the due timers, handle this
instant's environment events in order, then advance the clock. -/
def stepTime (h : PtyHandle) (env : Nat → List EnvEvent) (s : Sim) : Sim :=
  let s1 := fireDue h s
  let s2 := (env s.now).foldl handleEnv s1
  { s2 with now := s2.now + 1 }

/-- State right after the constructor ran at instant 0: fields initialised,
the 500-unit pid timeout armed, then `_setupTitlePolling` — a synchronous
`_sendProcessTitle` followed by arming the 200-unit title interval. -/
def initSim (h : PtyHandle) : Sim :=
  let s0 : Sim := ⟨0, 1, [], ⟨none, none, "", ⟨false, false, false, false⟩⟩, []⟩
  let s1 := (setTimeoutSim s0 TimerKind.pidT 500).1
  let s2 := sendProcessTitle h s1
  (setTimeoutSim s2 TimerKind.titleT 200).1

/-- Iterate `stepTime` for a given number of instants. -/
def steps (h : PtyHandle) (env : Nat → List EnvEvent) : Nat → Sim → Sim
  | 0, s => s
  | k + 1, s => steps h env k (stepTime h env s)

/-- Run the session from construction for `T` instants. -/
def run (h : PtyHandle) (env : Nat → List EnvEvent) (T : Nat) : Sim :=
  steps h env T (initSim h)

/-! ### Log classifiers -/

/-- Is the entry a delivery of a data event? -/
def isData : Out → Bool
  | Out.dataEv _ => true
  | _ => false

/-- Is the entry a delivery of an exit event? -/
def isExit : Out → Bool
  | Out.exitEv _ => true
  | _ => false

/-- Is the entry a delivery of a pid event? -/
def isPid : Out → Bool
  | Out.pidEv _ => true
  | _ => false

/-- Is the entry a delivery of a title event? -/
def isTitle : Out → Bool
  | Out.titleEv _ => true
  | _ => false

/-- Is the entry a delivery on any of the four event streams (as opposed to
a call made on the pty handle)? -/
def isDelivery (o : Out) : Bool := isData o || isExit o || isPid o || isTitle o

/-- Entries relevant to the exit-ordering claims: data deliveries, exit
deliveries and kill calls. -/
def isCore (o : Out) : Bool := isData o || isExit o || o == Out.killAct

/-- Restriction of the log to data deliveries, exit deliveries and kills. -/
def coreLog (L : List (Nat × Out)) : List (Nat × Out) := L.filter fun p => isCore p.2

/-- Number of exit deliveries in a log. -/
def countExits (L : List (Nat × Out)) : Nat := (L.filter fun p => isExit p.2).length

/-- Number of pid deliveries in a log. -/
def countPids (L : List (Nat × Out)) : Nat := (L.filter fun p => isPid p.2).length

/-- Number of kill calls in a log. -/
def countKills (L : List (Nat × Out)) : Nat := (L.filter fun p => p.2 == Out.killAct).length

/-- Does the log contain an exit delivery? -/
def hasExit (L : List (Nat × Out)) : Bool := L.any fun p => isExit p.2

/-- Scan with a seen-an-exit flag: once an exit delivery has occurred, no
further entry may be a delivery on any stream (in particular, no second
exit and no later data). -/
def ndaeAux : List (Nat × Out) → Bool → Bool
  | [], _ => true
  | e :: r, true => !isDelivery e.2 && ndaeAux r true
  | e :: r, false => ndaeAux r (isExit e.2)

/-- No delivery on any stream after an exit delivery. -/
def ndae (L : List (Nat × Out)) : Bool := ndaeAux L false

/-- Scan detecting an entry satisfying `p` located strictly after an exit
delivery; the flag records whether an exit has been seen. -/
def afterExitAux (p : Out → Bool) : List (Nat × Out) → Bool → Bool
  | [], _ => false
  | e :: r, true => p e.2 || afterExitAux p r true
  | e :: r, false => afterExitAux p r (isExit e.2)

/-- Is some data delivery located after an exit delivery in the log? -/
def dataAfterExit (L : List (Nat × Out)) : Bool := afterExitAux isData L false

/-- Is some delivery on any stream located after an exit delivery? -/
def delivAfterExit (L : List (Nat × Out)) : Bool := afterExitAux isDelivery L false

/-- Is some pid delivery located after an exit delivery? -/
def pidAfterExit (L : List (Nat × Out)) : Bool := afterExitAux isPid L false

/-- Scan with a seen-a-pid flag: at most one pid delivery, and every pid
delivery happens at instant 500 carrying the given pid. -/
def pidOkAux (v : Int) : List (Nat × Out) → Bool → Bool
  | [], _ => true
  | (t, Out.pidEv p) :: r, sp => !sp && decide (t = 500) && decide (p = v) && pidOkAux v r true
  | _ :: r, sp => pidOkAux v r sp

/-- Pid-delivery discipline of a log. -/
def pidOk (v : Int) (L : List (Nat × Out)) : Bool := pidOkAux v L false

/-- One log entry is compatible with the pid discipline: if it is a pid
delivery, it happened at instant 500 and carried the given pid. -/
def pidEntryOk (v : Int) (e : Nat × Out) : Bool :=
  match e.2 with
  | Out.pidEv q => decide (e.1 = 500) && decide (q = v)
  | _ => true

/-- The all-disposed check on the four emitters. -/
def allDisp (e : Emitters) : Bool := e.dataDisp && e.exitDisp && e.pidDisp && e.titleDisp

/-- Master safety invariant, preserved by every step of the simulation for
an arbitrary environment: the log obeys the no-delivery-after-exit and pid
disciplines, an exit delivery forces all emitters disposed, and the pid
timer (if still pending) is the single 500-unit one armed at construction
with no pid delivered yet. -/
structure MInv (h : PtyHandle) (s : Sim) : Prop where
  ndaeOk : ndae s.log = true
  pidLogOk : pidOk h.pid s.log = true
  exitDisposed : hasExit s.log = true → allDisp s.tp.em = true
  pidTimerAt : ∀ t ∈ s.timers, t.kind = TimerKind.pidT → t.fireAt = 500
  pidTimerFresh : (∃ t ∈ s.timers, t.kind = TimerKind.pidT) → countPids s.log = 0
  pidTimerOnce : (s.timers.filter fun t => decide (t.kind = TimerKind.pidT)).length ≤ 1

/-- Regular open-session state description used for the timing lemmas: no
emitter disposed, `_exitCode` as recorded, the core log (data, exit, kill
entries) as given, timer ids fresh-bounded, and exactly one title-poll
timer pending. -/
structure RegBase (s : Sim) (ec : Option Int) (cl : List (Nat × Out)) : Prop where
  flags : s.tp.em = Emitters.mk false false false false
  ecode : s.tp.exitCode = ec
  core : coreLog s.log = cl
  bound : ∀ t ∈ s.timers, t.tid < s.nextId
  tcount : (s.timers.filter fun t => decide (t.kind = TimerKind.titleT)).length = 1

/-- Open session with no exit debounce in flight: `_closeTimeout` unset and
no close timer pending. -/
def RegNone (s : Sim) (ec : Option Int) (cl : List (Nat × Out)) : Prop :=
  RegBase s ec cl ∧ s.tp.closeTimeout = none
    ∧ (s.timers.filter fun t => decide (t.kind = TimerKind.closeT)) = []

/-- Open session with the exit debounce armed: `_closeTimeout` holds id `i`,
exactly one close timer (id `i`, due at `d`) is pending, and no other
pending timer shares id `i`. -/
def RegArmed (s : Sim) (ec : Option Int) (i d : Nat) (cl : List (Nat × Out)) : Prop :=
  RegBase s ec cl ∧ s.tp.closeTimeout = some i ∧ i < s.nextId
    ∧ (s.timers.filter fun t => decide (t.kind = TimerKind.closeT))
        = [Timer.mk i d TimerKind.closeT]
    ∧ ∀ t ∈ s.timers, t.kind ≠ TimerKind.closeT → t.tid ≠ i

/-- Closed-session state description: all emitters disposed, the core log as
given, and the title-poll interval still pending (it is never cancelled). -/
structure ClosedReg (s : Sim) (cl : List (Nat × Out)) : Prop where
  em : s.tp.em = Emitters.mk true true true true
  core : coreLog s.log = cl
  tcount : (s.timers.filter fun t => decide (t.kind = TimerKind.titleT)).length = 1

/-- Effect summary of firing a batch of non-close timers: the class fields
and the core log are untouched; `k` fresh title timers were re-armed (one
per title tick fired). -/
structure QuietFold (s s' : Sim) (k : Nat) : Prop where
  now : s'.now = s.now
  em : s'.tp.em = s.tp.em
  ecode : s'.tp.exitCode = s.tp.exitCode
  ctid : s'.tp.closeTimeout = s.tp.closeTimeout
  core : coreLog s'.log = coreLog s.log
  closeF : s'.timers.filter (fun t => decide (t.kind = TimerKind.closeT))
      = s.timers.filter (fun t => decide (t.kind = TimerKind.closeT))
  tcount : (s'.timers.filter fun t => decide (t.kind = TimerKind.titleT)).length
      = (s.timers.filter fun t => decide (t.kind = TimerKind.titleT)).length + k
  nextLe : s.nextId ≤ s'.nextId
  boundOut : (∀ t ∈ s.timers, t.tid < s.nextId) → ∀ t ∈ s'.timers, t.tid < s'.nextId
  memChar : ∀ t ∈ s'.timers, t ∈ s.timers ∨ (t.kind = TimerKind.titleT ∧ s.nextId ≤ t.tid)

/-- Effect summary of firing a batch of timers containing exactly one close
timer on an undisposed session: the close callback killed the pty, emitted
the exit event with the recorded code and disposed the emitters; the core
log grew by exactly the kill and exit entries. -/
structure CloseFold (s s' : Sim) (k : Nat) : Prop where
  now : s'.now = s.now
  em : s'.tp.em = Emitters.mk true true true true
  ctid : s'.tp.closeTimeout = s.tp.closeTimeout
  core : coreLog s'.log
      = coreLog s.log ++ [(s.now, Out.killAct), (s.now, Out.exitEv s.tp.exitCode)]
  closeF : s'.timers.filter (fun t => decide (t.kind = TimerKind.closeT))
      = s.timers.filter (fun t => decide (t.kind = TimerKind.closeT))
  tcount : (s'.timers.filter fun t => decide (t.kind = TimerKind.titleT)).length
      = (s.timers.filter fun t => decide (t.kind = TimerKind.titleT)).length + k
  nextLe : s.nextId ≤ s'.nextId
  boundOut : (∀ t ∈ s.timers, t.tid < s.nextId) → ∀ t ∈ s'.timers, t.tid < s'.nextId
  memChar : ∀ t ∈ s'.timers, t ∈ s.timers ∨ (t.kind = TimerKind.titleT ∧ s.nextId ≤ t.tid)

/-- Environment with a single natural exit (code `c`) at instant `e`. -/
def exitEnvAt (e : Nat) (c : Int) : Nat → List EnvEvent :=
  fun n => if n = e then [EnvEvent.rawExit c] else []

/-! ### Trace schemata and concrete inputs used by individual claims -/

/-- Chain condition for a burst of trailing data chunks: each chunk arrives
strictly after the previous trigger and strictly within the 250-unit
debounce window that the previous trigger armed. -/
def chainOk (prev : Nat) : List (Nat × String) → Bool
  | [] => true
  | (t, _) :: r => decide (prev < t) && decide (t < prev + 250) && chainOk t r

/-- Arrival instant of the last chunk of a burst (the exit instant when the
burst is empty). -/
def lastT (e : Nat) (L : List (Nat × String)) : Nat := L.foldl (fun _ p => p.1) e

/-- Environment of the burst scenario: a raw exit with code `c` at instant
`e`, followed by the raw data chunks of `L` at their instants. -/
def burstEnv (e : Nat) (c : Int) (L : List (Nat × String)) : Nat → List EnvEvent :=
  fun n => (if n = e then [EnvEvent.rawExit c] else [])
    ++ (L.filter fun p => decide (p.1 = n)).map fun p => EnvEvent.rawData p.2

/-- Environment with a single caller-initiated shutdown at instant `t`. -/
def shutdownEnv (t : Nat) : Nat → List EnvEvent :=
  fun n => if n = t then [EnvEvent.shutdownCall] else []

/-- A concrete pty handle: pid 7, title constantly empty. -/
def hC : PtyHandle := ⟨7, fun _ => ("")⟩

/-- Trace: natural exit at instant 0, nothing else. -/
def env5 : Nat → List EnvEvent := fun n => if n = 0 then [EnvEvent.rawExit 0] else []

/-- Trace: natural exit at instant 10, then a raw data chunk at instant 300,
well after the 260-instant close. -/
def env4 : Nat → List EnvEvent := fun n =>
  if n = 10 then [EnvEvent.rawExit 0]
  else if n = 300 then [EnvEvent.rawData ("x")] else []

/-- Trace: natural exit with code 2 at instant 10, nothing else. -/
def env3 : Nat → List EnvEvent := fun n => if n = 10 then [EnvEvent.rawExit 2] else []

/-- Trace: shutdown at instant 0, then `input` at instant 300 and `resize 0 0`
at instant 301, both after the 250-instant close. -/
def env9 : Nat → List EnvEvent := fun n =>
  if n = 0 then [EnvEvent.shutdownCall]
  else if n = 300 then [EnvEvent.inputCall ("x")]
  else if n = 301 then [EnvEvent.resizeCall 0 0] else []

/-- Concrete burst used as a witness: chunks at instants 2 and 3 after an
exit at instant 1. -/
def burstW : List (Nat × String) := [(2, ("a")), (3, ("b"))]

/-- State of the `env5` trace after 200 instants. -/
def c5m1 : Sim :=
  ⟨200, 4,
   [⟨1, 500, TimerKind.pidT⟩, ⟨2, 200, TimerKind.titleT⟩, ⟨3, 250, TimerKind.closeT⟩],
   ⟨some 0, some 3, "", ⟨false, false, false, false⟩⟩,
   [(0, Out.titleEv (""))]⟩

/-- State of the `env5` trace after 400 instants. -/
def c5m2 : Sim :=
  ⟨400, 5,
   [⟨1, 500, TimerKind.pidT⟩, ⟨4, 400, TimerKind.titleT⟩],
   ⟨some 0, some 3, "", ⟨true, true, true, true⟩⟩,
   [(0, Out.titleEv ("")), (250, Out.killAct), (250, Out.exitEv (some 0))]⟩

/-- State of the `env4` trace after 200 instants. -/
def c4m1 : Sim :=
  ⟨200, 4,
   [⟨1, 500, TimerKind.pidT⟩, ⟨2, 200, TimerKind.titleT⟩, ⟨3, 260, TimerKind.closeT⟩],
   ⟨some 0, some 3, "", ⟨false, false, false, false⟩⟩,
   [(0, Out.titleEv (""))]⟩

/-- State of the `env4` trace after 400 instants: closed at 260, then the
data arrival at 300 re-armed a fresh close timer due at 550. -/
def c4m2 : Sim :=
  ⟨400, 6,
   [⟨1, 500, TimerKind.pidT⟩, ⟨4, 400, TimerKind.titleT⟩, ⟨5, 550, TimerKind.closeT⟩],
   ⟨some 0, some 5, "", ⟨true, true, true, true⟩⟩,
   [(0, Out.titleEv ("")), (260, Out.killAct), (260, Out.exitEv (some 0))]⟩

/-- State of the `env3` trace after 150 instants. -/
def c3m1 : Sim :=
  ⟨150, 4,
   [⟨1, 500, TimerKind.pidT⟩, ⟨2, 200, TimerKind.titleT⟩, ⟨3, 260, TimerKind.closeT⟩],
   ⟨some 2, some 3, "", ⟨false, false, false, false⟩⟩,
   [(0, Out.titleEv (""))]⟩

/-- State of the `env9` trace after 155 instants. -/
def c9m1 : Sim :=
  ⟨155, 4,
   [⟨1, 500, TimerKind.pidT⟩, ⟨2, 200, TimerKind.titleT⟩, ⟨3, 250, TimerKind.closeT⟩],
   ⟨none, some 3, "", ⟨false, false, false, false⟩⟩,
   [(0, Out.titleEv (""))]⟩

/-! ### General lemmas -/

/-- Running `a + b` instants is running `a` instants and then `b` more. -/
theorem steps_add (h : PtyHandle) (env : Nat → List EnvEvent) (a b : Nat) (s : Sim) :
    steps h env (a + b) s = steps h env b (steps h env a s) := by
  induction a generalizing s with
  | zero => rw [Nat.zero_add]; rfl
  | succ k ih =>
      have hab : k + 1 + b = (k + b) + 1 := by omega
      rw [hab]
      exact ih (stepTime h env s)

/-! ### Log-scan lemmas -/

theorem isExit_of_not_isDelivery {o : Out} (h : isDelivery o = false) : isExit o = false := by
  cases o <;> simp_all [isDelivery, isExit, isData, isPid, isTitle]

theorem isPid_of_not_isDelivery {o : Out} (h : isDelivery o = false) : isPid o = false := by
  cases o <;> simp_all [isDelivery, isExit, isData, isPid, isTitle]

theorem hasExit_append (L1 L2 : List (Nat × Out)) :
    hasExit (L1 ++ L2) = (hasExit L1 || hasExit L2) := by
  simp [hasExit, List.any_append]

theorem hasExit_cons (a : Nat × Out) (r : List (Nat × Out)) :
    hasExit (a :: r) = (isExit a.2 || hasExit r) := by
  simp [hasExit]

theorem countPids_append (L1 L2 : List (Nat × Out)) :
    countPids (L1 ++ L2) = countPids L1 + countPids L2 := by
  simp [countPids, List.filter_append]

theorem countExits_append (L1 L2 : List (Nat × Out)) :
    countExits (L1 ++ L2) = countExits L1 + countExits L2 := by
  simp [countExits, List.filter_append]

theorem countPids_eq_zero_of_nonpid (L : List (Nat × Out))
    (hL : ∀ e ∈ L, isPid e.2 = false) : countPids L = 0 := by
  induction L with
  | nil => rfl
  | cons a r ih =>
      have ha := hL a (List.mem_cons_self a r)
      have hr := ih fun e he => hL e (List.mem_cons_of_mem a he)
      simp [countPids, List.filter_cons, ha] at hr ⊢
      exact hr

theorem ndaeAux_append_nondeliv (e : Nat × Out) (he : isDelivery e.2 = false)
    (L : List (Nat × Out)) : ∀ b : Bool, ndaeAux (L ++ [e]) b = ndaeAux L b := by
  induction L with
  | nil =>
      intro b
      cases b with
      | true => simp [ndaeAux, he]
      | false => simp [ndaeAux]
  | cons a r ih =>
      intro b
      cases b with
      | true => simp [ndaeAux, ih]
      | false => simp [ndaeAux, ih]

theorem ndaeAux_append_noexit (e : Nat × Out) (L : List (Nat × Out))
    (hL : hasExit L = false) : ndaeAux (L ++ [e]) false = ndaeAux L false := by
  induction L with
  | nil => simp [ndaeAux]
  | cons a r ih =>
      rw [hasExit_cons, Bool.or_eq_false_iff] at hL
      simp only [List.cons_append, ndaeAux, hL.1]
      exact ih hL.2

theorem ndaeAux_afterExit (p : Out → Bool) (hp : ∀ o, p o = true → isDelivery o = true)
    (L : List (Nat × Out)) : ∀ b : Bool, ndaeAux L b = true → afterExitAux p L b = false := by
  induction L with
  | nil => intro b _; rfl
  | cons a r ih =>
      intro b hb
      cases b with
      | true =>
          rw [ndaeAux, Bool.and_eq_true] at hb
          have hpa : p a.2 = false := by
            cases hq : p a.2
            · rfl
            · have := hp a.2 hq
              simp [this] at hb
          rw [afterExitAux, hpa, Bool.false_or]
          exact ih true hb.2
      | false =>
          rw [ndaeAux] at hb
          rw [afterExitAux]
          exact ih (isExit a.2) hb

theorem ndaeAux_countExits (L : List (Nat × Out)) :
    ∀ b : Bool, ndaeAux L b = true → countExits L ≤ (if b then 0 else 1) := by
  induction L with
  | nil => intro b _; simp [countExits]
  | cons a r ih =>
      intro b hb
      cases b with
      | true =>
          rw [ndaeAux, Bool.and_eq_true] at hb
          have hx : isExit a.2 = false :=
            isExit_of_not_isDelivery (by
              cases hq : isDelivery a.2
              · rfl
              · simp [hq] at hb)
          have := ih true hb.2
          simp [countExits, List.filter_cons, hx] at this ⊢
          exact this
      | false =>
          rw [ndaeAux] at hb
          cases hx : isExit a.2 with
          | true =>
              rw [hx] at hb
              have h0 := ih true hb
              rw [if_pos rfl] at h0
              have hcons : countExits (a :: r) = countExits r + 1 := by
                simp [countExits, List.filter_cons, hx]
              rw [hcons, if_neg (by simp)]
              omega
          | false =>
              rw [hx] at hb
              have h0 := ih false hb
              rw [if_neg (by simp)] at h0
              have hcons : countExits (a :: r) = countExits r := by
                simp [countExits, List.filter_cons, hx]
              rw [hcons, if_neg (by simp)]
              exact h0

theorem pidOkAux_append_nonpid (v : Int) (e : Nat × Out) (he : isPid e.2 = false)
    (L : List (Nat × Out)) : ∀ sp : Bool, pidOkAux v (L ++ [e]) sp = pidOkAux v L sp := by
  induction L with
  | nil =>
      intro sp
      obtain ⟨t, o⟩ := e
      cases o <;> simp_all [pidOkAux, isPid]
  | cons a r ih =>
      intro sp
      obtain ⟨t, o⟩ := a
      cases o <;> simp [pidOkAux, ih]

theorem pidOkAux_append_pid (v : Int) (L : List (Nat × Out))
    (hc : countPids L = 0) (hok : pidOkAux v L false = true) :
    pidOkAux v (L ++ [(500, Out.pidEv v)]) false = true := by
  induction L with
  | nil => simp [pidOkAux]
  | cons a r ih =>
      obtain ⟨t, o⟩ := a
      cases o with
      | pidEv q => simp [countPids, List.filter_cons, isPid] at hc
      | _ =>
          rw [List.cons_append]
          simp only [pidOkAux] at hok ⊢
          have hcr : countPids r = 0 := by
            simpa [countPids, List.filter_cons, isPid] using hc
          exact ih hcr hok

theorem pidOkAux_all (v : Int) (L : List (Nat × Out)) :
    ∀ sp : Bool, pidOkAux v L sp = true → L.all (pidEntryOk v) = true := by
  induction L with
  | nil => intro sp _; rfl
  | cons a r ih =>
      intro sp hb
      obtain ⟨t, o⟩ := a
      cases o with
      | pidEv q =>
          simp only [pidOkAux, Bool.and_eq_true] at hb
          obtain ⟨⟨⟨_, h500⟩, hqv⟩, hrest⟩ := hb
          simp only [List.all_cons, Bool.and_eq_true]
          refine ⟨?_, ih true hrest⟩
          simp [pidEntryOk, of_decide_eq_true h500, of_decide_eq_true hqv]
      | _ =>
          simp only [pidOkAux] at hb
          simp only [List.all_cons, Bool.and_eq_true]
          exact ⟨by simp [pidEntryOk], ih sp hb⟩

theorem pidOkAux_count (v : Int) (L : List (Nat × Out)) :
    ∀ sp : Bool, pidOkAux v L sp = true → countPids L ≤ (if sp then 0 else 1) := by
  induction L with
  | nil => intro sp _; simp [countPids]
  | cons a r ih =>
      intro sp hb
      obtain ⟨t, o⟩ := a
      cases o with
      | pidEv q =>
          cases sp with
          | true => simp [pidOkAux] at hb
          | false =>
              simp only [pidOkAux, Bool.and_eq_true] at hb
              have h0 := ih true hb.2
              rw [if_pos rfl] at h0
              have hcons : countPids ((t, Out.pidEv q) :: r) = countPids r + 1 := by
                simp [countPids, List.filter_cons, isPid]
              rw [hcons, if_neg (by simp)]
              omega
      | _ =>
          simp only [pidOkAux] at hb
          have h0 := ih sp hb
          simpa [countPids, List.filter_cons, isPid] using h0

/-! ### Claim theorems: resize, dispose, input after close, title polling -/

/-- C7: every `resize(cols, rows)` call forwards exactly `max cols 1` and
`max rows 1` to the handle; a non-positive dimension is forwarded as
exactly 1, and the forwarded dimensions are never below 1. -/
theorem c7_resize_clamps (s : Sim) (c r : Int) :
    (handleEnv s (EnvEvent.resizeCall c r)).log
        = s.log ++ [(s.now, Out.resizeAct (max c 1) (max r 1))]
    ∧ (c ≤ 0 → max c 1 = 1) ∧ (r ≤ 0 → max r 1 = 1)
    ∧ 1 ≤ max c 1 ∧ 1 ≤ max r 1 := by
  refine ⟨rfl, ?_, ?_, le_max_right c 1, le_max_right r 1⟩
  · intro hc; exact max_eq_right (by omega)
  · intro hr; exact max_eq_right (by omega)

/-- Witness for C7 at cols = -5, rows = 0. -/
theorem c7_witness :
    (handleEnv (initSim hC) (EnvEvent.resizeCall (-5) 0)).log
        = (initSim hC).log ++ [((initSim hC).now, Out.resizeAct 1 1)]
    ∧ max (-5 : Int) 1 = 1 ∧ max (0 : Int) 1 = 1 := by
  obtain ⟨h1, h2, h3, _, _⟩ := c7_resize_clamps (initSim hC) (-5) 0
  have e2 : max (-5 : Int) 1 = 1 := h2 (by norm_num)
  have e3 : max (0 : Int) 1 = 1 := h3 (by norm_num)
  refine ⟨?_, e2, e3⟩
  rw [h1, e2, e3]

/-- C10: the public `dispose()` disposes exactly the four emitters and
nothing else: the log (so no kill and no write is issued to the handle),
the pending timers (so neither the close-debounce timeout nor the
title-poll interval is cancelled), `_closeTimeout`, `_exitCode` and
`_currentTitle` are all left untouched. -/
theorem c10_dispose_frame (s : Sim) :
    (handleEnv s EnvEvent.disposeCall).tp.em = ⟨true, true, true, true⟩
    ∧ (handleEnv s EnvEvent.disposeCall).log = s.log
    ∧ (handleEnv s EnvEvent.disposeCall).timers = s.timers
    ∧ (handleEnv s EnvEvent.disposeCall).tp.closeTimeout = s.tp.closeTimeout
    ∧ (handleEnv s EnvEvent.disposeCall).tp.exitCode = s.tp.exitCode
    ∧ (handleEnv s EnvEvent.disposeCall).tp.currentTitle = s.tp.currentTitle
    ∧ (handleEnv s EnvEvent.disposeCall).now = s.now :=
  ⟨rfl, rfl, rfl, rfl, rfl, rfl, rfl⟩

/-- C9 (amended): `input()` and `resize()` follow one uniform policy in
every state, including after the session is closed: they forward to the
underlying handle unconditionally (resize still clamped), with no state
guard and no error of the manager's own. -/
theorem c9_amended_uniform_forwarding (s : Sim) (d : String) (c r : Int) :
    (handleEnv s (EnvEvent.inputCall d)).log = s.log ++ [(s.now, Out.writeAct d)]
    ∧ (handleEnv s (EnvEvent.inputCall d)).tp = s.tp
    ∧ (handleEnv s (EnvEvent.inputCall d)).timers = s.timers
    ∧ (handleEnv s (EnvEvent.resizeCall c r)).log
        = s.log ++ [(s.now, Out.resizeAct (max c 1) (max r 1))]
    ∧ (handleEnv s (EnvEvent.resizeCall c r)).tp = s.tp
    ∧ (handleEnv s (EnvEvent.resizeCall c r)).timers = s.timers :=
  ⟨rfl, rfl, rfl, rfl, rfl, rfl⟩

/-- C9 counterexample: shutdown at 0 closes the session at 250 (kill and
exit delivered, emitters disposed), yet `input` at 300 still performs a
write on the handle and `resize 0 0` at 301 still performs a resize — the
calls are not no-ops after `Closed`, and no error path exists either. -/
theorem c9_counterexample :
    (run hC env9 310).log
      = [(0, Out.titleEv ("")), (250, Out.killAct), (250, Out.exitEv none),
         (300, Out.writeAct ("x")), (301, Out.resizeAct 1 1)] := by
  have h1 : steps hC env9 155 (initSim hC) = c9m1 := by decide
  have hr : run hC env9 310 = steps hC env9 155 c9m1 := by
    show steps hC env9 310 (initSim hC) = _
    have h310 : (310 : Nat) = 155 + 155 := by norm_num
    rw [h310, steps_add, h1]
  rw [hr]
  decide

/-- C8: title polling.  At construction an initial synchronous poll stores
and emits the handle's title before the 200-unit interval is first armed;
afterwards, on a live session, a poll tick emits nothing when the handle's
title equals the last-published one, and emits exactly one title event
carrying the new value (which becomes the stored last-published title)
when it differs, with the next poll armed 200 units later. -/
theorem c8_title_polling (h : PtyHandle) (s : Sim) (j f : Nat)
    (hlive : s.tp.em.titleDisp = false) :
    (initSim h).log = [(0, Out.titleEv (h.titleAt 0))]
    ∧ (initSim h).timers = [⟨1, 500, TimerKind.pidT⟩, ⟨2, 200, TimerKind.titleT⟩]
    ∧ (fireOne h s ⟨j, f, TimerKind.titleT⟩).timers
        = s.timers ++ [⟨s.nextId, s.now + 200, TimerKind.titleT⟩]
    ∧ (s.tp.currentTitle = h.titleAt s.now →
        (fireOne h s ⟨j, f, TimerKind.titleT⟩).log = s.log
        ∧ (fireOne h s ⟨j, f, TimerKind.titleT⟩).tp.currentTitle = s.tp.currentTitle)
    ∧ (s.tp.currentTitle ≠ h.titleAt s.now →
        (fireOne h s ⟨j, f, TimerKind.titleT⟩).log
            = s.log ++ [(s.now, Out.titleEv (h.titleAt s.now))]
        ∧ (fireOne h s ⟨j, f, TimerKind.titleT⟩).tp.currentTitle = h.titleAt s.now) := by
  refine ⟨?_, ?_, ?_, ?_, ?_⟩
  · simp [initSim, setTimeoutSim, sendProcessTitle]
  · simp [initSim, setTimeoutSim, sendProcessTitle]
  · by_cases hne : s.tp.currentTitle = h.titleAt s.now
    · simp [fireOne, titleTickCb, setTimeoutSim, hne]
    · simp [fireOne, titleTickCb, setTimeoutSim, sendProcessTitle, hne, hlive]
  · intro hne
    constructor
    · simp [fireOne, titleTickCb, setTimeoutSim, hne]
    · simp [fireOne, titleTickCb, setTimeoutSim, hne]
  · intro hne
    constructor
    · simp [fireOne, titleTickCb, setTimeoutSim, sendProcessTitle, hne, hlive]
    · simp [fireOne, titleTickCb, setTimeoutSim, sendProcessTitle, hne, hlive]

/-- Witness for C8 at the freshly constructed session with the constant
empty title: the initial emit happened at construction, and a tick with an
unchanged title emits nothing. -/
theorem c8_witness :
    (initSim hC).log = [(0, Out.titleEv (""))]
    ∧ (fireOne hC (initSim hC) ⟨9, 0, TimerKind.titleT⟩).log = (initSim hC).log := by
  have H := c8_title_polling hC (initSim hC) 9 0 (by decide)
  exact ⟨H.1, (H.2.2.2.1 (by decide)).1⟩

/-! ### Counterexample theorems for the close transition and its aftermath -/

/-- C3 counterexample: natural exit at 10 closes the session at 260 (exit
delivered), yet at instant 300 the title-poll interval is still pending —
the `Closed` transition did not cancel it (its handle is never stored), so
not all resources are released. -/
theorem c3_counterexample :
    hasExit (run hC env3 300).log = true
    ∧ (run hC env3 300).timers.filter (fun t => decide (t.kind = TimerKind.titleT))
        = [⟨4, 400, TimerKind.titleT⟩] := by
  have h1 : steps hC env3 150 (initSim hC) = c3m1 := by decide
  have hr : run hC env3 300 = steps hC env3 150 c3m1 := by
    show steps hC env3 300 (initSim hC) = _
    have h300 : (300 : Nat) = 150 + 150 := by norm_num
    rw [h300, steps_add, h1]
  rw [hr]
  exact ⟨by decide, by decide⟩

/-- C4 counterexample: natural exit at 10 closes the session at 260 (kill,
then exit delivered).  A raw data arrival at 300 — after `Closed` — is not
a no-op: it re-arms the close-debounce timer (pending at 550 already at
instant 301) and leads to a second kill of the pty at 550. -/
theorem c4_counterexample :
    coreLog (run hC env4 551).log
      = [(260, Out.killAct), (260, Out.exitEv (some 0)), (550, Out.killAct)]
    ∧ (run hC env4 301).timers.filter (fun t => decide (t.kind = TimerKind.closeT))
        = [⟨5, 550, TimerKind.closeT⟩] := by
  have h1 : steps hC env4 200 (initSim hC) = c4m1 := by decide
  have h2 : steps hC env4 200 c4m1 = c4m2 := by decide
  have hr : run hC env4 551 = steps hC env4 151 c4m2 := by
    show steps hC env4 551 (initSim hC) = _
    have h551 : (551 : Nat) = 200 + (200 + 151) := by norm_num
    rw [h551, steps_add, h1, steps_add, h2]
  have hr2 : run hC env4 301 = steps hC env4 101 c4m1 := by
    show steps hC env4 301 (initSim hC) = _
    have h301 : (301 : Nat) = 200 + 101 := by norm_num
    rw [h301, steps_add, h1]
  constructor
  · rw [hr]; decide
  · rw [hr2]; decide

/-- C5 counterexample: natural exit at instant 0 closes the session at 250;
the delayed pid notification only comes due at 500, when the emitters are
already disposed.  By instant 501 the pid timer has fired and is gone, yet
no `onProcessIdReady` was ever delivered, while `onExit` was — so the pid
event neither fires exactly once nor precedes every exit. -/
theorem c5_counterexample :
    countPids (run hC env5 501).log = 0
    ∧ countExits (run hC env5 501).log = 1
    ∧ (run hC env5 501).timers.filter (fun t => decide (t.kind = TimerKind.pidT)) = [] := by
  have h1 : steps hC env5 200 (initSim hC) = c5m1 := by decide
  have h2 : steps hC env5 200 c5m1 = c5m2 := by decide
  have hr : run hC env5 501 = steps hC env5 101 c5m2 := by
    show steps hC env5 501 (initSim hC) = _
    have h501 : (501 : Nat) = 200 + (200 + 101) := by norm_num
    rw [h501, steps_add, h1, steps_add, h2]
  rw [hr]
  exact ⟨by decide, by decide, by decide⟩

/-! ### Preservation of the master invariant -/

theorem mem_eq_of_length_le_one {α : Type} {l : List α} (hl : l.length ≤ 1) {a b : α}
    (ha : a ∈ l) (hb : b ∈ l) : a = b := by
  cases l with
  | nil => exact absurd ha (List.not_mem_nil a)
  | cons x r =>
      cases r with
      | nil =>
          rw [List.mem_singleton] at ha hb
          rw [ha, hb]
      | cons y q => simp [List.length_cons] at hl

theorem minv_transfer (h : PtyHandle) (s s' : Sim)
    (hlog : s'.log = s.log) (htim : s'.timers = s.timers) (hem : s'.tp.em = s.tp.em)
    (M : MInv h s) : MInv h s' := by
  refine ⟨?_, ?_, ?_, ?_, ?_, ?_⟩
  · rw [hlog]; exact M.ndaeOk
  · rw [hlog]; exact M.pidLogOk
  · rw [hlog, hem]; exact M.exitDisposed
  · rw [htim]; exact M.pidTimerAt
  · rw [htim, hlog]; exact M.pidTimerFresh
  · rw [htim]; exact M.pidTimerOnce

theorem countPids_single_nonpid (t : Nat) (o : Out) (hp : isPid o = false) :
    countPids [(t, o)] = 0 := by
  simp [countPids, List.filter_cons, hp]

theorem minv_log_nondeliv (h : PtyHandle) (s : Sim) (M : MInv h s) (t : Nat) (o : Out)
    (ho : isDelivery o = false) : MInv h { s with log := s.log ++ [(t, o)] } := by
  have hx : isExit o = false := isExit_of_not_isDelivery ho
  have hp : isPid o = false := isPid_of_not_isDelivery ho
  refine ⟨?_, ?_, ?_, M.pidTimerAt, ?_, M.pidTimerOnce⟩
  · show ndae (s.log ++ [(t, o)]) = true
    rw [ndae, ndaeAux_append_nondeliv (t, o) ho s.log false]
    exact M.ndaeOk
  · show pidOk h.pid (s.log ++ [(t, o)]) = true
    rw [pidOk, pidOkAux_append_nonpid h.pid (t, o) hp s.log false]
    exact M.pidLogOk
  · show hasExit (s.log ++ [(t, o)]) = true → _
    rw [hasExit_append]
    intro hh
    apply M.exitDisposed
    simpa [hasExit, hx] using hh
  · intro he
    show countPids (s.log ++ [(t, o)]) = 0
    rw [countPids_append, countPids_single_nonpid t o hp, M.pidTimerFresh he]

theorem minv_log_fresh (h : PtyHandle) (s : Sim) (M : MInv h s) (t : Nat) (o : Out)
    (hx : isExit o = false) (hp : isPid o = false) (hne : hasExit s.log = false) :
    MInv h { s with log := s.log ++ [(t, o)] } := by
  refine ⟨?_, ?_, ?_, M.pidTimerAt, ?_, M.pidTimerOnce⟩
  · show ndae (s.log ++ [(t, o)]) = true
    rw [ndae, ndaeAux_append_noexit (t, o) s.log hne]
    exact M.ndaeOk
  · show pidOk h.pid (s.log ++ [(t, o)]) = true
    rw [pidOk, pidOkAux_append_nonpid h.pid (t, o) hp s.log false]
    exact M.pidLogOk
  · show hasExit (s.log ++ [(t, o)]) = true → _
    intro hh
    rw [hasExit_append, hne, Bool.false_or] at hh
    have h1 : hasExit [(t, o)] = false := by simp [hasExit, hx]
    rw [h1] at hh
    exact Bool.noConfusion hh
  · intro he
    show countPids (s.log ++ [(t, o)]) = 0
    rw [countPids_append, countPids_single_nonpid t o hp, M.pidTimerFresh he]

theorem minv_timers_filter (h : PtyHandle) (s : Sim) (M : MInv h s) (p : Timer → Bool) :
    MInv h { s with timers := s.timers.filter p } := by
  refine ⟨M.ndaeOk, M.pidLogOk, M.exitDisposed, ?_, ?_, ?_⟩
  · intro u hu hk
    exact M.pidTimerAt u (List.mem_of_mem_filter hu) hk
  · rintro ⟨u, hu, hk⟩
    exact M.pidTimerFresh ⟨u, List.mem_of_mem_filter hu, hk⟩
  · calc ((s.timers.filter p).filter fun t => decide (t.kind = TimerKind.pidT)).length
        ≤ (s.timers.filter fun t => decide (t.kind = TimerKind.pidT)).length :=
          List.Sublist.length_le (List.Sublist.filter _ (List.filter_sublist s.timers))
    _ ≤ 1 := M.pidTimerOnce

theorem minv_setTimeout (h : PtyHandle) (s : Sim) (M : MInv h s) (k : TimerKind)
    (hk : k ≠ TimerKind.pidT) (d : Nat) : MInv h (setTimeoutSim s k d).1 := by
  refine ⟨M.ndaeOk, M.pidLogOk, M.exitDisposed, ?_, ?_, ?_⟩
  · intro u hu hku
    rcases List.mem_append.mp hu with h1 | h2
    · exact M.pidTimerAt u h1 hku
    · have hu2 : u = ⟨s.nextId, s.now + d, k⟩ := by simpa using h2
      rw [hu2] at hku
      exact absurd hku hk
  · rintro ⟨u, hu, hku⟩
    rcases List.mem_append.mp hu with h1 | h2
    · exact M.pidTimerFresh ⟨u, h1, hku⟩
    · have hu2 : u = ⟨s.nextId, s.now + d, k⟩ := by simpa using h2
      rw [hu2] at hku
      exact absurd hku hk
  · show ((s.timers ++ [Timer.mk s.nextId (s.now + d) k]).filter
        fun t => decide (t.kind = TimerKind.pidT)).length ≤ 1
    rw [List.filter_append]
    have h1 : (([Timer.mk s.nextId (s.now + d) k] : List Timer).filter
        fun t => decide (t.kind = TimerKind.pidT)) = [] := by
      simp [List.filter_cons, hk]
    rw [h1, List.append_nil]
    exact M.pidTimerOnce

theorem minv_queue (h : PtyHandle) (s : Sim) (M : MInv h s) :
    MInv h (queueProcessExit s) := by
  rcases hct : s.tp.closeTimeout with _ | i
  · simp only [queueProcessExit, hct]
    exact minv_transfer h (setTimeoutSim s TimerKind.closeT 250).1 _ rfl rfl rfl
      (minv_setTimeout h s M TimerKind.closeT (by simp) 250)
  · simp only [queueProcessExit, hct]
    exact minv_transfer h (setTimeoutSim (clearTimeoutSim s i) TimerKind.closeT 250).1 _
      rfl rfl rfl
      (minv_setTimeout h (clearTimeoutSim s i)
        (minv_timers_filter h s M _) TimerKind.closeT (by simp) 250)

theorem allDisp_parts {e : Emitters} (he : allDisp e = true) :
    e.dataDisp = true ∧ e.exitDisp = true ∧ e.pidDisp = true ∧ e.titleDisp = true := by
  rw [allDisp] at he
  simp only [Bool.and_eq_true] at he
  exact ⟨he.1.1.1, he.1.1.2, he.1.2, he.2⟩

theorem minv_fireData (h : PtyHandle) (s : Sim) (M : MInv h s) (d : String) :
    MInv h (fireData s d) := by
  by_cases hd : s.tp.em.dataDisp = true
  · have he : fireData s d = s := by simp [fireData, hd]
    rw [he]; exact M
  · have hdf : s.tp.em.dataDisp = false := by simpa using hd
    have hne : hasExit s.log = false := by
      cases hh : hasExit s.log
      · rfl
      · exact absurd (allDisp_parts (M.exitDisposed hh)).1 hd
    have he : fireData s d = { s with log := s.log ++ [(s.now, Out.dataEv d)] } := by
      simp [fireData, hdf]
    rw [he]
    exact minv_log_fresh h s M s.now (Out.dataEv d) rfl rfl hne

theorem minv_sendTitle (h : PtyHandle) (s : Sim) (M : MInv h s) :
    MInv h (sendProcessTitle h s) := by
  have M1 : MInv h { s with tp := { s.tp with currentTitle := h.titleAt s.now } } :=
    minv_transfer h s _ rfl rfl rfl M
  by_cases ht : s.tp.em.titleDisp = true
  · have he : sendProcessTitle h s
        = { s with tp := { s.tp with currentTitle := h.titleAt s.now } } := by
      simp [sendProcessTitle, ht]
    rw [he]; exact M1
  · have htf : s.tp.em.titleDisp = false := by simpa using ht
    have hne : hasExit s.log = false := by
      cases hh : hasExit s.log
      · rfl
      · exact absurd (allDisp_parts (M.exitDisposed hh)).2.2.2 ht
    have he : sendProcessTitle h s
        = { s with tp := { s.tp with currentTitle := h.titleAt s.now },
                   log := s.log ++ [(s.now, Out.titleEv (h.titleAt s.now))] } := by
      simp [sendProcessTitle, htf]
    rw [he]
    exact minv_log_fresh h _ M1 s.now (Out.titleEv (h.titleAt s.now)) rfl rfl hne

theorem minv_dispose (h : PtyHandle) (s : Sim) (M : MInv h s) : MInv h (dispose s) :=
  ⟨M.ndaeOk, M.pidLogOk, fun _ => rfl, M.pidTimerAt, M.pidTimerFresh, M.pidTimerOnce⟩

theorem minv_closeFire (h : PtyHandle) (s : Sim) (M : MInv h s) :
    MInv h (closeFireCb s) := by
  have M1 : MInv h { s with log := s.log ++ [(s.now, Out.killAct)] } :=
    minv_log_nondeliv h s M s.now Out.killAct rfl
  by_cases hx : s.tp.em.exitDisp = true
  · have he : closeFireCb s
        = dispose { s with log := s.log ++ [(s.now, Out.killAct)] } := by
      simp [closeFireCb, fireExit, hx]
    rw [he]
    exact minv_dispose h _ M1
  · have hxf : s.tp.em.exitDisp = false := by simpa using hx
    have hne : hasExit s.log = false := by
      cases hh : hasExit s.log
      · rfl
      · exact absurd (allDisp_parts (M.exitDisposed hh)).2.1 hx
    have hne1 : hasExit (s.log ++ [(s.now, Out.killAct)]) = false := by
      rw [hasExit_append, hne]
      simp [hasExit, isExit]
    have he : closeFireCb s
        = dispose { s with log := (s.log ++ [(s.now, Out.killAct)])
            ++ [(s.now, Out.exitEv s.tp.exitCode)] } := by
      simp [closeFireCb, fireExit, hxf]
    rw [he]
    refine ⟨?_, ?_, fun _ => rfl, M1.pidTimerAt, ?_, M1.pidTimerOnce⟩
    · show ndae ((s.log ++ [(s.now, Out.killAct)])
          ++ [(s.now, Out.exitEv s.tp.exitCode)]) = true
      rw [ndae, ndaeAux_append_noexit _ _ hne1]
      exact M1.ndaeOk
    · show pidOk h.pid ((s.log ++ [(s.now, Out.killAct)])
          ++ [(s.now, Out.exitEv s.tp.exitCode)]) = true
      rw [pidOk, pidOkAux_append_nonpid h.pid (s.now, Out.exitEv s.tp.exitCode) rfl _ false]
      exact M1.pidLogOk
    · intro he2
      show countPids ((s.log ++ [(s.now, Out.killAct)])
          ++ [(s.now, Out.exitEv s.tp.exitCode)]) = 0
      rw [countPids_append, countPids_single_nonpid s.now (Out.exitEv s.tp.exitCode) rfl]
      rw [M1.pidTimerFresh he2]

theorem minv_titleTick (h : PtyHandle) (s : Sim) (M : MInv h s) :
    MInv h (titleTickCb h s) := by
  unfold titleTickCb
  split
  · exact minv_sendTitle h s M
  · exact M

theorem minv_dataHandler (h : PtyHandle) (s : Sim) (M : MInv h s) (d : String) :
    MInv h (dataHandlerCb s d) := by
  have M1 : MInv h (fireData s d) := minv_fireData h s M d
  rcases hct : (fireData s d).tp.closeTimeout with _ | i
  · simp only [dataHandlerCb, hct]
    exact M1
  · simp only [dataHandlerCb, hct]
    exact minv_queue h _ (minv_timers_filter h _ M1 _)

theorem minv_exitHandler (h : PtyHandle) (s : Sim) (M : MInv h s) (c : Int) :
    MInv h (exitHandlerCb s c) :=
  minv_queue h { s with tp := { s.tp with exitCode := some c } }
    (minv_transfer h s { s with tp := { s.tp with exitCode := some c } } rfl rfl rfl M)

theorem minv_handleEnv (h : PtyHandle) (s : Sim) (M : MInv h s) (ev : EnvEvent) :
    MInv h (handleEnv s ev) := by
  cases ev with
  | rawData d => exact minv_dataHandler h s M d
  | rawExit c => exact minv_exitHandler h s M c
  | shutdownCall => exact minv_queue h s M
  | inputCall d => exact minv_log_nondeliv h s M s.now (Out.writeAct d) rfl
  | resizeCall c r =>
      exact minv_log_nondeliv h s M s.now
        (Out.resizeAct (resizeArgs c r).1 (resizeArgs c r).2) rfl
  | disposeCall => exact minv_dispose h s M

theorem minv_envFold (h : PtyHandle) (evs : List EnvEvent) :
    ∀ s : Sim, MInv h s → MInv h (evs.foldl handleEnv s) := by
  induction evs with
  | nil => intro s M; exact M
  | cons e r ih => intro s M; exact ih _ (minv_handleEnv h s M e)

theorem closeFire_now (s : Sim) : (closeFireCb s).now = s.now := by
  by_cases hx : s.tp.em.exitDisp = true <;> simp [closeFireCb, fireExit, dispose, hx]

theorem closeFire_timers (s : Sim) : (closeFireCb s).timers = s.timers := by
  by_cases hx : s.tp.em.exitDisp = true <;> simp [closeFireCb, fireExit, dispose, hx]

theorem closeFire_countPids (s : Sim) :
    countPids (closeFireCb s).log = countPids s.log := by
  by_cases hx : s.tp.em.exitDisp = true
  · have he : closeFireCb s = dispose { s with log := s.log ++ [(s.now, Out.killAct)] } := by
      simp [closeFireCb, fireExit, hx]
    rw [he]
    show countPids (s.log ++ [(s.now, Out.killAct)]) = countPids s.log
    rw [countPids_append, countPids_single_nonpid s.now Out.killAct rfl]
    omega
  · have hxf : s.tp.em.exitDisp = false := by simpa using hx
    have he : closeFireCb s = dispose { s with log := (s.log ++ [(s.now, Out.killAct)])
        ++ [(s.now, Out.exitEv s.tp.exitCode)] } := by
      simp [closeFireCb, fireExit, hxf]
    rw [he]
    show countPids ((s.log ++ [(s.now, Out.killAct)])
        ++ [(s.now, Out.exitEv s.tp.exitCode)]) = countPids s.log
    rw [countPids_append, countPids_append,
      countPids_single_nonpid s.now Out.killAct rfl,
      countPids_single_nonpid s.now (Out.exitEv s.tp.exitCode) rfl]
    omega

theorem sendTitle_now (h : PtyHandle) (s : Sim) : (sendProcessTitle h s).now = s.now := by
  by_cases ht : s.tp.em.titleDisp = true <;> simp [sendProcessTitle, ht]

theorem sendTitle_timers (h : PtyHandle) (s : Sim) :
    (sendProcessTitle h s).timers = s.timers := by
  by_cases ht : s.tp.em.titleDisp = true <;> simp [sendProcessTitle, ht]

theorem sendTitle_countPids (h : PtyHandle) (s : Sim) :
    countPids (sendProcessTitle h s).log = countPids s.log := by
  by_cases ht : s.tp.em.titleDisp = true
  · simp [sendProcessTitle, ht]
  · simp [sendProcessTitle, ht, countPids_append,
      countPids_single_nonpid s.now (Out.titleEv (h.titleAt s.now)) rfl]

theorem titleTick_now (h : PtyHandle) (s : Sim) : (titleTickCb h s).now = s.now := by
  unfold titleTickCb
  split
  · exact sendTitle_now h s
  · rfl

theorem titleTick_timers (h : PtyHandle) (s : Sim) :
    (titleTickCb h s).timers = s.timers := by
  unfold titleTickCb
  split
  · exact sendTitle_timers h s
  · rfl

theorem titleTick_countPids (h : PtyHandle) (s : Sim) :
    countPids (titleTickCb h s).log = countPids s.log := by
  unfold titleTickCb
  split
  · exact sendTitle_countPids h s
  · rfl

theorem filter_length_cons_le {α : Type} (p : α → Bool) (t : α) (r : List α) :
    (r.filter p).length ≤ ((t :: r).filter p).length := by
  rw [List.filter_cons]
  split <;> simp

theorem minv_foldFire (h : PtyHandle) : ∀ (due : List Timer) (s : Sim), MInv h s →
    (∀ t ∈ due, t.kind = TimerKind.pidT →
        s.now = 500 ∧ countPids s.log = 0 ∧ ∀ u ∈ s.timers, u.kind ≠ TimerKind.pidT) →
    (due.filter fun t => decide (t.kind = TimerKind.pidT)).length ≤ 1 →
    MInv h (due.foldl (fireOne h) s) := by
  intro due
  induction due with
  | nil => intro s M _ _; exact M
  | cons t rest ih =>
      intro s M H2 H3
      rw [List.foldl_cons]
      have H3r : (rest.filter fun t => decide (t.kind = TimerKind.pidT)).length ≤ 1 :=
        le_trans (filter_length_cons_le _ t rest) H3
      cases hk : t.kind with
      | closeT =>
          have hfo : fireOne h s t = closeFireCb s := by simp [fireOne, hk]
          rw [hfo]
          apply ih (closeFireCb s) (minv_closeFire h s M) ?_ H3r
          intro u hu hku
          obtain ⟨e1, e2, e3⟩ := H2 u (List.mem_cons_of_mem t hu) hku
          refine ⟨?_, ?_, ?_⟩
          · rw [closeFire_now]; exact e1
          · rw [closeFire_countPids]; exact e2
          · rw [closeFire_timers]; exact e3
      | titleT =>
          have hfo : fireOne h s t = titleTickCb h (setTimeoutSim s TimerKind.titleT 200).1 := by
            simp [fireOne, hk]
          rw [hfo]
          have M1 : MInv h (setTimeoutSim s TimerKind.titleT 200).1 :=
            minv_setTimeout h s M TimerKind.titleT (by simp) 200
          apply ih _ (minv_titleTick h _ M1) ?_ H3r
          intro u hu hku
          obtain ⟨e1, e2, e3⟩ := H2 u (List.mem_cons_of_mem t hu) hku
          refine ⟨?_, ?_, ?_⟩
          · rw [titleTick_now]; exact e1
          · rw [titleTick_countPids]
            show countPids s.log = 0
            exact e2
          · rw [titleTick_timers]
            intro w hw
            rcases List.mem_append.mp hw with h1 | h2
            · exact e3 w h1
            · have hw2 : w = ⟨s.nextId, s.now + 200, TimerKind.titleT⟩ := by simpa using h2
              rw [hw2]
              simp
      | pidT =>
          have hrest : ∀ u ∈ rest, u.kind ≠ TimerKind.pidT := by
            intro u hu hku
            have hmem : (t :: rest).filter (fun x => decide (x.kind = TimerKind.pidT))
                = t :: rest.filter (fun x => decide (x.kind = TimerKind.pidT)) := by
              rw [List.filter_cons, if_pos (by simp [hk])]
            have hmem2 : u ∈ rest.filter (fun x => decide (x.kind = TimerKind.pidT)) :=
              List.mem_filter.mpr ⟨hu, by simp [hku]⟩
            have hlen : (rest.filter (fun x => decide (x.kind = TimerKind.pidT))).length = 0 := by
              have := H3
              rw [hmem, List.length_cons] at this
              omega
            rw [List.length_eq_zero] at hlen
            rw [hlen] at hmem2
            exact absurd hmem2 (List.not_mem_nil u)
          obtain ⟨h500, hc0, hno⟩ := H2 t (List.mem_cons_self t rest) hk
          have hfo : fireOne h s t = sendProcessId h s := by simp [fireOne, hk]
          rw [hfo]
          by_cases hp : s.tp.em.pidDisp = true
          · have he : sendProcessId h s = s := by simp [sendProcessId, hp]
            rw [he]
            apply ih s M ?_ H3r
            intro u hu hku
            exact absurd hku (hrest u hu)
          · have hpf : s.tp.em.pidDisp = false := by simpa using hp
            have hne : hasExit s.log = false := by
              cases hh : hasExit s.log
              · rfl
              · exact absurd (allDisp_parts (M.exitDisposed hh)).2.2.1 hp
            have he : sendProcessId h s
                = { s with log := s.log ++ [(s.now, Out.pidEv h.pid)] } := by
              simp [sendProcessId, hpf]
            rw [he]
            have M1 : MInv h { s with log := s.log ++ [(s.now, Out.pidEv h.pid)] } := by
              refine ⟨?_, ?_, ?_, M.pidTimerAt, ?_, M.pidTimerOnce⟩
              · show ndae (s.log ++ [(s.now, Out.pidEv h.pid)]) = true
                rw [ndae, ndaeAux_append_noexit _ _ hne]
                exact M.ndaeOk
              · show pidOk h.pid (s.log ++ [(s.now, Out.pidEv h.pid)]) = true
                rw [pidOk, h500]
                exact pidOkAux_append_pid h.pid s.log hc0 M.pidLogOk
              · show hasExit (s.log ++ [(s.now, Out.pidEv h.pid)]) = true → _
                intro hh
                rw [hasExit_append, hne, Bool.false_or] at hh
                have h1 : hasExit [(s.now, Out.pidEv h.pid)] = false := by
                  simp [hasExit, isExit]
                rw [h1] at hh
                exact Bool.noConfusion hh
              · rintro ⟨u, hu, hku⟩
                exact absurd hku (hno u hu)
            apply ih _ M1 ?_ H3r
            intro u hu hku
            exact absurd hku (hrest u hu)

theorem minv_fireDue (h : PtyHandle) (s : Sim) (M : MInv h s) :
    MInv h (fireDue h s) := by
  have M1 : MInv h { s with timers := s.timers.filter fun t => decide (t.fireAt ≠ s.now) } :=
    minv_timers_filter h s M _
  show MInv h ((s.timers.filter fun t => decide (t.fireAt = s.now)).foldl (fireOne h)
      { s with timers := s.timers.filter fun t => decide (t.fireAt ≠ s.now) })
  apply minv_foldFire h _ _ M1 ?_ ?_
  · intro t ht hk
    have htmem : t ∈ s.timers := List.mem_of_mem_filter ht
    have hfa : t.fireAt = s.now := of_decide_eq_true (List.mem_filter.mp ht).2
    have h500 : t.fireAt = 500 := M.pidTimerAt t htmem hk
    refine ⟨by show s.now = 500; omega, ?_, ?_⟩
    · show countPids s.log = 0
      exact M.pidTimerFresh ⟨t, htmem, hk⟩
    · intro u hu hku
      have hum := List.mem_filter.mp hu
      have hune : u.fireAt ≠ s.now := of_decide_eq_true hum.2
      have h1 : t ∈ s.timers.filter (fun x => decide (x.kind = TimerKind.pidT)) :=
        List.mem_filter.mpr ⟨htmem, by simp [hk]⟩
      have h2 : u ∈ s.timers.filter (fun x => decide (x.kind = TimerKind.pidT)) :=
        List.mem_filter.mpr ⟨hum.1, by simp [hku]⟩
      have htu : t = u := mem_eq_of_length_le_one M.pidTimerOnce h1 h2
      rw [← htu] at hune
      exact hune hfa
  · calc ((s.timers.filter fun t => decide (t.fireAt = s.now)).filter
        fun t => decide (t.kind = TimerKind.pidT)).length
        ≤ (s.timers.filter fun t => decide (t.kind = TimerKind.pidT)).length :=
          List.Sublist.length_le (List.Sublist.filter _ (List.filter_sublist s.timers))
    _ ≤ 1 := M.pidTimerOnce

theorem minv_stepTime (h : PtyHandle) (env : Nat → List EnvEvent) (s : Sim)
    (M : MInv h s) : MInv h (stepTime h env s) := by
  have M2 := minv_envFold h (env s.now) (fireDue h s) (minv_fireDue h s M)
  exact minv_transfer h ((env s.now).foldl handleEnv (fireDue h s)) _ rfl rfl rfl M2

theorem init_log (h : PtyHandle) : (initSim h).log = [(0, Out.titleEv (h.titleAt 0))] := by
  simp [initSim, setTimeoutSim, sendProcessTitle]

theorem init_timers (h : PtyHandle) :
    (initSim h).timers = [⟨1, 500, TimerKind.pidT⟩, ⟨2, 200, TimerKind.titleT⟩] := by
  simp [initSim, setTimeoutSim, sendProcessTitle]

theorem minv_init (h : PtyHandle) : MInv h (initSim h) := by
  refine ⟨?_, ?_, ?_, ?_, ?_, ?_⟩
  · rw [ndae, init_log]; rfl
  · rw [pidOk, init_log]; rfl
  · rw [init_log]
    intro hh
    simp [hasExit, isExit] at hh
  · rw [init_timers]
    intro u hu hk
    rcases List.mem_cons.mp hu with h1 | h2
    · rw [h1]
    · have h3 : u = ⟨2, 200, TimerKind.titleT⟩ := by simpa using h2
      rw [h3] at hk
      simp at hk
  · intro _
    rw [init_log]
    rfl
  · rw [init_timers]
    decide

theorem minv_steps (h : PtyHandle) (env : Nat → List EnvEvent) :
    ∀ (k : Nat) (s : Sim), MInv h s → MInv h (steps h env k s) := by
  intro k
  induction k with
  | zero => intro s M; exact M
  | succ n ih => intro s M; exact ih _ (minv_stepTime h env s M)

theorem minv_run (h : PtyHandle) (env : Nat → List EnvEvent) (T : Nat) :
    MInv h (run h env T) :=
  minv_steps h env T (initSim h) (minv_init h)

/-! ### Universal claim theorems derived from the master invariant -/

/-- C1: for every environment (arbitrary raw data, raw exits, shutdowns,
inputs, resizes and dispose calls at arbitrary instants) and every run
length, the exit event is delivered at most once and no data event is
delivered to subscribers after an exit delivery. -/
theorem c1_exit_once_no_data_after (h : PtyHandle) (env : Nat → List EnvEvent) (T : Nat) :
    countExits (run h env T).log ≤ 1 ∧ dataAfterExit (run h env T).log = false := by
  have M := minv_run h env T
  constructor
  · have := ndaeAux_countExits (run h env T).log false M.ndaeOk
    simpa using this
  · exact ndaeAux_afterExit isData
      (fun o ho => by cases o <;> simp_all [isDelivery, isData])
      (run h env T).log false M.ndaeOk

/-- C4 (amended): once the session is closed — the exit event delivered —
no further event is delivered to subscribers on any of the four streams,
for every environment and run length.  However (see the counterexample)
later internal callbacks are not no-ops: a raw data arrival after close
re-arms the close-debounce timer and triggers a further kill of the pty. -/
theorem c4_amended_closed_delivers_nothing (h : PtyHandle) (env : Nat → List EnvEvent)
    (T : Nat) : delivAfterExit (run h env T).log = false :=
  ndaeAux_afterExit isDelivery (fun _ ho => ho) (run h env T).log false
    (minv_run h env T).ndaeOk

/-- C5 (amended): `onProcessIdReady` is delivered at most once, always at
instant 500 (500 units after construction) and always carrying the
handle's pid verbatim, and never after an exit delivery; in particular a
session that closes before instant 500 never delivers it at all. -/
theorem c5_amended_pid_discipline (h : PtyHandle) (env : Nat → List EnvEvent) (T : Nat) :
    countPids (run h env T).log ≤ 1
    ∧ (run h env T).log.all (pidEntryOk h.pid) = true
    ∧ pidAfterExit (run h env T).log = false := by
  have M := minv_run h env T
  refine ⟨?_, pidOkAux_all h.pid (run h env T).log false M.pidLogOk, ?_⟩
  · simpa using pidOkAux_count h.pid (run h env T).log false M.pidLogOk
  · exact ndaeAux_afterExit isPid
      (fun o ho => by cases o <;> simp_all [isDelivery, isPid])
      (run h env T).log false M.ndaeOk

/-! ### List and log helper lemmas for the timing development -/

theorem filter_partition_length {α : Type} (p q : α → Bool) (l : List α) :
    ((l.filter p).filter q).length + ((l.filter fun x => !(p x)).filter q).length
      = (l.filter q).length := by
  induction l with
  | nil => rfl
  | cons x r ih =>
      cases hp : p x <;> cases hq : q x <;>
        simp [List.filter_cons, hp, hq, -List.filter_filter] <;> omega

theorem filter_swap {α : Type} (p q : α → Bool) (l : List α) :
    (l.filter p).filter q = (l.filter q).filter p := by
  induction l with
  | nil => rfl
  | cons x r ih =>
      cases hp : p x <;> cases hq : q x <;>
        simp [List.filter_cons, hp, hq, ih]

theorem coreLog_append (L1 L2 : List (Nat × Out)) :
    coreLog (L1 ++ L2) = coreLog L1 ++ coreLog L2 := by
  simp [coreLog, List.filter_append]

theorem coreLog_single_noncore (t : Nat) (o : Out) (ho : isCore o = false) :
    coreLog [(t, o)] = [] := by
  simp [coreLog, List.filter_cons, ho]

theorem coreLog_single_core (t : Nat) (o : Out) (ho : isCore o = true) :
    coreLog [(t, o)] = [(t, o)] := by
  simp [coreLog, List.filter_cons, ho]

theorem countExits_coreLog (L : List (Nat × Out)) :
    countExits (coreLog L) = countExits L := by
  induction L with
  | nil => rfl
  | cons a r ih =>
      obtain ⟨t, o⟩ := a
      cases o <;>
        simp_all [countExits, coreLog, List.filter_cons, isCore, isExit, isData]

/-! ### Frame lemmas for the step functions -/

theorem sendPid_frame (h : PtyHandle) (s : Sim) :
    (sendProcessId h s).now = s.now ∧ (sendProcessId h s).nextId = s.nextId
    ∧ (sendProcessId h s).timers = s.timers ∧ (sendProcessId h s).tp = s.tp
    ∧ coreLog (sendProcessId h s).log = coreLog s.log := by
  by_cases hp : s.tp.em.pidDisp = true
  · simp [sendProcessId, hp]
  · have hpf : s.tp.em.pidDisp = false := by simpa using hp
    refine ⟨by simp [sendProcessId, hpf], by simp [sendProcessId, hpf],
      by simp [sendProcessId, hpf], by simp [sendProcessId, hpf], ?_⟩
    have he : sendProcessId h s = { s with log := s.log ++ [(s.now, Out.pidEv h.pid)] } := by
      simp [sendProcessId, hpf]
    rw [he]
    show coreLog (s.log ++ [(s.now, Out.pidEv h.pid)]) = coreLog s.log
    rw [coreLog_append, coreLog_single_noncore s.now (Out.pidEv h.pid) rfl,
      List.append_nil]

theorem sendTitle_frame (h : PtyHandle) (s : Sim) :
    (sendProcessTitle h s).now = s.now ∧ (sendProcessTitle h s).nextId = s.nextId
    ∧ (sendProcessTitle h s).timers = s.timers
    ∧ (sendProcessTitle h s).tp.em = s.tp.em
    ∧ (sendProcessTitle h s).tp.exitCode = s.tp.exitCode
    ∧ (sendProcessTitle h s).tp.closeTimeout = s.tp.closeTimeout
    ∧ coreLog (sendProcessTitle h s).log = coreLog s.log := by
  by_cases ht : s.tp.em.titleDisp = true
  · simp [sendProcessTitle, ht]
  · have htf : s.tp.em.titleDisp = false := by simpa using ht
    have he : sendProcessTitle h s
        = { s with tp := { s.tp with currentTitle := h.titleAt s.now },
                   log := s.log ++ [(s.now, Out.titleEv (h.titleAt s.now))] } := by
      simp [sendProcessTitle, htf]
    rw [he]
    refine ⟨rfl, rfl, rfl, rfl, rfl, rfl, ?_⟩
    show coreLog (s.log ++ [(s.now, Out.titleEv (h.titleAt s.now))]) = coreLog s.log
    rw [coreLog_append, coreLog_single_noncore s.now (Out.titleEv (h.titleAt s.now)) rfl,
      List.append_nil]

theorem QuietFold.refl (s : Sim) : QuietFold s s 0 :=
  ⟨rfl, rfl, rfl, rfl, rfl, rfl, by omega, Nat.le_refl _, fun hb => hb,
    fun t ht => Or.inl ht⟩

theorem QuietFold.trans {s1 s2 s3 : Sim} {k1 k2 : Nat}
    (A : QuietFold s1 s2 k1) (B : QuietFold s2 s3 k2) : QuietFold s1 s3 (k1 + k2) := by
  refine ⟨?_, ?_, ?_, ?_, ?_, ?_, ?_, ?_, ?_, ?_⟩
  · rw [B.now, A.now]
  · rw [B.em, A.em]
  · rw [B.ecode, A.ecode]
  · rw [B.ctid, A.ctid]
  · rw [B.core, A.core]
  · rw [B.closeF, A.closeF]
  · rw [B.tcount, A.tcount]; omega
  · exact Nat.le_trans A.nextLe B.nextLe
  · intro hb
    exact B.boundOut (A.boundOut hb)
  · intro t ht
    rcases B.memChar t ht with h1 | h2
    · rcases A.memChar t h1 with h3 | h4
      · exact Or.inl h3
      · exact Or.inr h4
    · exact Or.inr ⟨h2.1, Nat.le_trans A.nextLe h2.2⟩

theorem QuietFold.qcast {s s' : Sim} {k k' : Nat} (A : QuietFold s s' k) (hk : k = k') :
    QuietFold s s' k' := hk ▸ A

theorem CloseFold.of_quiet_close {s1 s2 s3 : Sim} {k1 k2 : Nat}
    (A : QuietFold s1 s2 k1) (B : CloseFold s2 s3 k2) : CloseFold s1 s3 (k1 + k2) := by
  refine ⟨?_, B.em, ?_, ?_, ?_, ?_, ?_, ?_, ?_⟩
  · rw [B.now, A.now]
  · rw [B.ctid, A.ctid]
  · rw [B.core, A.core, A.now, A.ecode]
  · rw [B.closeF, A.closeF]
  · rw [B.tcount, A.tcount]; omega
  · exact Nat.le_trans A.nextLe B.nextLe
  · intro hb
    exact B.boundOut (A.boundOut hb)
  · intro t ht
    rcases B.memChar t ht with h1 | h2
    · rcases A.memChar t h1 with h3 | h4
      · exact Or.inl h3
      · exact Or.inr h4
    · exact Or.inr ⟨h2.1, Nat.le_trans A.nextLe h2.2⟩

theorem CloseFold.of_close_quiet {s1 s2 s3 : Sim} {k1 k2 : Nat}
    (A : CloseFold s1 s2 k1) (B : QuietFold s2 s3 k2) : CloseFold s1 s3 (k1 + k2) := by
  refine ⟨?_, ?_, ?_, ?_, ?_, ?_, ?_, ?_, ?_⟩
  · rw [B.now, A.now]
  · rw [B.em, A.em]
  · rw [B.ctid, A.ctid]
  · rw [B.core, A.core]
  · rw [B.closeF, A.closeF]
  · rw [B.tcount, A.tcount]; omega
  · exact Nat.le_trans A.nextLe B.nextLe
  · intro hb
    exact B.boundOut (A.boundOut hb)
  · intro t ht
    rcases B.memChar t ht with h1 | h2
    · rcases A.memChar t h1 with h3 | h4
      · exact Or.inl h3
      · exact Or.inr h4
    · exact Or.inr ⟨h2.1, Nat.le_trans A.nextLe h2.2⟩

theorem CloseFold.ccast {s s' : Sim} {k k' : Nat} (A : CloseFold s s' k) (hk : k = k') :
    CloseFold s s' k' := hk ▸ A

theorem quietHead_pid (h : PtyHandle) (s : Sim) :
    QuietFold s (sendProcessId h s) 0 := by
  obtain ⟨f1, f2, f3, f4, f5⟩ := sendPid_frame h s
  exact ⟨f1, by rw [f4], by rw [f4], by rw [f4], f5, by rw [f3], by rw [f3]; omega,
    by rw [f2], fun hb => by rw [f3, f2]; exact hb, fun t ht => Or.inl (f3 ▸ ht)⟩

theorem quietHead_titleTick (h : PtyHandle) (s : Sim) :
    QuietFold s (titleTickCb h s) 0 := by
  unfold titleTickCb
  split
  · obtain ⟨f1, f2, f3, f4, f5, f6, f7⟩ := sendTitle_frame h s
    exact ⟨f1, f4, f5, f6, f7, by rw [f3], by rw [f3]; omega, by rw [f2],
      fun hb => by rw [f3, f2]; exact hb, fun t ht => Or.inl (f3 ▸ ht)⟩
  · exact QuietFold.refl s

theorem quietHead_setTitleTimer (s : Sim) :
    QuietFold s (setTimeoutSim s TimerKind.titleT 200).1 1 := by
  refine ⟨rfl, rfl, rfl, rfl, rfl, ?_, ?_, Nat.le_succ _, ?_, ?_⟩
  · show ((s.timers ++ [Timer.mk s.nextId (s.now + 200) TimerKind.titleT]).filter
        fun t => decide (t.kind = TimerKind.closeT)) = _
    rw [List.filter_append]
    simp [List.filter_cons]
  · show ((s.timers ++ [Timer.mk s.nextId (s.now + 200) TimerKind.titleT]).filter
        fun t => decide (t.kind = TimerKind.titleT)).length = _
    rw [List.filter_append, List.length_append]
    simp [List.filter_cons]
  · intro hb u hu
    rcases List.mem_append.mp hu with h1 | h2
    · exact Nat.lt_trans (hb u h1) (Nat.lt_succ_self _)
    · have hu2 : u = Timer.mk s.nextId (s.now + 200) TimerKind.titleT := by simpa using h2
      rw [hu2]
      exact Nat.lt_succ_self _
  · intro u hu
    rcases List.mem_append.mp hu with h1 | h2
    · exact Or.inl h1
    · have hu2 : u = Timer.mk s.nextId (s.now + 200) TimerKind.titleT := by simpa using h2
      rw [hu2]
      exact Or.inr ⟨rfl, Nat.le_refl _⟩

theorem quietHead_title (h : PtyHandle) (s : Sim) :
    QuietFold s (titleTickCb h (setTimeoutSim s TimerKind.titleT 200).1) 1 :=
  (QuietFold.trans (quietHead_setTitleTimer s)
    (quietHead_titleTick h (setTimeoutSim s TimerKind.titleT 200).1)).qcast (by omega)

theorem closeHead (s : Sim) (hem : s.tp.em = Emitters.mk false false false false) :
    CloseFold s (closeFireCb s) 0 := by
  have hxf : s.tp.em.exitDisp = false := by rw [hem]
  have he : closeFireCb s = dispose { s with log := (s.log ++ [(s.now, Out.killAct)])
      ++ [(s.now, Out.exitEv s.tp.exitCode)] } := by
    simp [closeFireCb, fireExit, hxf]
  rw [he]
  refine ⟨rfl, rfl, rfl, ?_, rfl, ?_, Nat.le_refl _, fun hb => hb,
    fun t ht => Or.inl ht⟩
  case refine_2 =>
    show (s.timers.filter fun t => decide (t.kind = TimerKind.titleT)).length
        = (s.timers.filter fun t => decide (t.kind = TimerKind.titleT)).length + 0
    omega
  show coreLog ((s.log ++ [(s.now, Out.killAct)]) ++ [(s.now, Out.exitEv s.tp.exitCode)]) = _
  rw [coreLog_append, coreLog_append,
    coreLog_single_core s.now Out.killAct rfl,
    coreLog_single_core s.now (Out.exitEv s.tp.exitCode) rfl,
    List.append_assoc]
  rfl

theorem foldQuiet (h : PtyHandle) : ∀ (due : List Timer) (s : Sim),
    (∀ t ∈ due, t.kind ≠ TimerKind.closeT) →
    QuietFold s (due.foldl (fireOne h) s)
      (due.filter fun t => decide (t.kind = TimerKind.titleT)).length := by
  intro due
  induction due with
  | nil => intro s _; exact QuietFold.refl s
  | cons t rest ih =>
      intro s hnc
      rw [List.foldl_cons]
      have hrest : ∀ u ∈ rest, u.kind ≠ TimerKind.closeT :=
        fun u hu => hnc u (List.mem_cons_of_mem t hu)
      cases hk : t.kind with
      | closeT => exact absurd hk (hnc t (List.mem_cons_self t rest))
      | pidT =>
          have hfo : fireOne h s t = sendProcessId h s := by simp [fireOne, hk]
          rw [hfo]
          refine (QuietFold.trans (quietHead_pid h s) (ih (sendProcessId h s) hrest)).qcast ?_
          simp [List.filter_cons, hk]
      | titleT =>
          have hfo : fireOne h s t
              = titleTickCb h (setTimeoutSim s TimerKind.titleT 200).1 := by
            simp [fireOne, hk]
          rw [hfo]
          refine (QuietFold.trans (quietHead_title h s) (ih _ hrest)).qcast ?_
          simp [List.filter_cons, hk]
          omega

theorem foldClose (h : PtyHandle) : ∀ (due : List Timer) (s : Sim),
    (due.filter fun t => decide (t.kind = TimerKind.closeT)).length = 1 →
    s.tp.em = Emitters.mk false false false false →
    CloseFold s (due.foldl (fireOne h) s)
      (due.filter fun t => decide (t.kind = TimerKind.titleT)).length := by
  intro due
  induction due with
  | nil => intro s hcount _; simp at hcount
  | cons t rest ih =>
      intro s hcount hem
      rw [List.foldl_cons]
      cases hk : t.kind with
      | closeT =>
          have hfo : fireOne h s t = closeFireCb s := by simp [fireOne, hk]
          rw [hfo]
          have hrest0 : (rest.filter fun u => decide (u.kind = TimerKind.closeT)).length = 0 := by
            rw [List.filter_cons, if_pos (by simp [hk])] at hcount
            simp at hcount
            simpa using hcount
          have hrestnc : ∀ u ∈ rest, u.kind ≠ TimerKind.closeT := by
            intro u hu hku
            rw [List.length_eq_zero] at hrest0
            have : u ∈ rest.filter fun x => decide (x.kind = TimerKind.closeT) :=
              List.mem_filter.mpr ⟨hu, by simp [hku]⟩
            rw [hrest0] at this
            exact absurd this (List.not_mem_nil u)
          refine (CloseFold.of_close_quiet (closeHead s hem)
            (foldQuiet h rest (closeFireCb s) hrestnc)).ccast ?_
          simp [List.filter_cons, hk]
      | pidT =>
          have hfo : fireOne h s t = sendProcessId h s := by simp [fireOne, hk]
          rw [hfo]
          have hc : (rest.filter fun u => decide (u.kind = TimerKind.closeT)).length = 1 := by
            rw [List.filter_cons, if_neg (by simp [hk])] at hcount
            exact hcount
          have Q := quietHead_pid h s
          have hem2 : (sendProcessId h s).tp.em = Emitters.mk false false false false := by
            rw [Q.em, hem]
          refine (CloseFold.of_quiet_close Q (ih (sendProcessId h s) hc hem2)).ccast ?_
          simp [List.filter_cons, hk]
      | titleT =>
          have hfo : fireOne h s t
              = titleTickCb h (setTimeoutSim s TimerKind.titleT 200).1 := by
            simp [fireOne, hk]
          rw [hfo]
          have hc : (rest.filter fun u => decide (u.kind = TimerKind.closeT)).length = 1 := by
            rw [List.filter_cons, if_neg (by simp [hk])] at hcount
            exact hcount
          have Q := quietHead_title h s
          have hem2 : (titleTickCb h (setTimeoutSim s TimerKind.titleT 200).1).tp.em
              = Emitters.mk false false false false := by
            rw [Q.em, hem]
          refine (CloseFold.of_quiet_close Q (ih _ hc hem2)).ccast ?_
          simp [List.filter_cons, hk]
          omega

/-! ### Clock frame lemmas -/

theorem fireData_now (s : Sim) (d : String) : (fireData s d).now = s.now := by
  by_cases hd : s.tp.em.dataDisp = true <;> simp [fireData, hd]

theorem fireData_tp (s : Sim) (d : String) : (fireData s d).tp = s.tp := by
  by_cases hd : s.tp.em.dataDisp = true <;> simp [fireData, hd]

theorem queue_now (s : Sim) : (queueProcessExit s).now = s.now := by
  rcases hct : s.tp.closeTimeout with _ | i <;>
    simp [queueProcessExit, hct, clearTimeoutSim, setTimeoutSim]

theorem fireOne_now (h : PtyHandle) (s : Sim) (t : Timer) : (fireOne h s t).now = s.now := by
  cases hk : t.kind with
  | closeT =>
      have hfo : fireOne h s t = closeFireCb s := by simp [fireOne, hk]
      rw [hfo, closeFire_now]
  | pidT =>
      have hfo : fireOne h s t = sendProcessId h s := by simp [fireOne, hk]
      rw [hfo]
      exact (sendPid_frame h s).1
  | titleT =>
      have hfo : fireOne h s t
          = titleTickCb h (setTimeoutSim s TimerKind.titleT 200).1 := by
        simp [fireOne, hk]
      rw [hfo, titleTick_now]
      rfl

theorem foldFire_now (h : PtyHandle) : ∀ (due : List Timer) (s : Sim),
    (due.foldl (fireOne h) s).now = s.now := by
  intro due
  induction due with
  | nil => intro s; rfl
  | cons t rest ih =>
      intro s
      rw [List.foldl_cons, ih, fireOne_now]

theorem fireDue_now (h : PtyHandle) (s : Sim) : (fireDue h s).now = s.now := by
  show ((s.timers.filter fun t => decide (t.fireAt = s.now)).foldl (fireOne h)
      { s with timers := s.timers.filter fun t => decide (t.fireAt ≠ s.now) }).now = s.now
  rw [foldFire_now]

theorem handleEnv_now (s : Sim) (ev : EnvEvent) : (handleEnv s ev).now = s.now := by
  cases ev with
  | rawData d =>
      show (dataHandlerCb s d).now = s.now
      rcases hct : (fireData s d).tp.closeTimeout with _ | i
      · simp only [dataHandlerCb, hct]
        exact fireData_now s d
      · simp only [dataHandlerCb, hct]
        rw [queue_now]
        exact fireData_now s d
  | rawExit c =>
      show (queueProcessExit { s with tp := { s.tp with exitCode := some c } }).now = s.now
      rw [queue_now]
  | shutdownCall => exact queue_now s
  | inputCall d => rfl
  | resizeCall c r => rfl
  | disposeCall => rfl

theorem envFold_now (evs : List EnvEvent) : ∀ s : Sim,
    (evs.foldl handleEnv s).now = s.now := by
  induction evs with
  | nil => intro s; rfl
  | cons e r ih =>
      intro s
      rw [List.foldl_cons, ih, handleEnv_now]

theorem stepTime_now (h : PtyHandle) (env : Nat → List EnvEvent) (s : Sim) :
    (stepTime h env s).now = s.now + 1 := by
  show ((env s.now).foldl handleEnv (fireDue h s)).now + 1 = s.now + 1
  rw [envFold_now, fireDue_now]

theorem steps_now (h : PtyHandle) (env : Nat → List EnvEvent) :
    ∀ (k : Nat) (s : Sim), (steps h env k s).now = s.now + k := by
  intro k
  induction k with
  | zero => intro s; rfl
  | succ n ih =>
      intro s
      show (steps h env n (stepTime h env s)).now = s.now + (n + 1)
      rw [ih, stepTime_now]
      omega

/-! ### The regular-state lemmas for firing due timers -/

theorem filter_ne_as_not (s : Sim) :
    (s.timers.filter fun t => decide (t.fireAt ≠ s.now))
      = s.timers.filter fun t => !(decide (t.fireAt = s.now)) :=
  List.filter_congr fun x _ => by simp [decide_not]

theorem timersOf (s : Sim) (X : List Timer) : ({ s with timers := X } : Sim).timers = X :=
  rfl

theorem title_partition (s : Sim) :
    (((s.timers.filter fun t => decide (t.fireAt = s.now)).filter
        fun t => decide (t.kind = TimerKind.titleT)).length)
    + (((s.timers.filter fun t => decide (t.fireAt ≠ s.now)).filter
        fun t => decide (t.kind = TimerKind.titleT)).length)
      = ((s.timers.filter fun t => decide (t.kind = TimerKind.titleT)).length) := by
  rw [filter_ne_as_not]
  exact filter_partition_length _ _ s.timers

theorem regNone_fireDue (h : PtyHandle) (s : Sim) (ec : Option Int)
    (cl : List (Nat × Out)) (R : RegNone s ec cl) : RegNone (fireDue h s) ec cl := by
  obtain ⟨B, hct, hcf⟩ := R
  have hnc : ∀ t ∈ s.timers.filter (fun t => decide (t.fireAt = s.now)),
      t.kind ≠ TimerKind.closeT := by
    intro t ht hk
    have hmem : t ∈ s.timers.filter fun t => decide (t.kind = TimerKind.closeT) :=
      List.mem_filter.mpr ⟨List.mem_of_mem_filter ht, by simp [hk]⟩
    rw [hcf] at hmem
    exact absurd hmem (List.not_mem_nil t)
  have Q := foldQuiet h (s.timers.filter fun t => decide (t.fireAt = s.now))
      { s with timers := s.timers.filter fun t => decide (t.fireAt ≠ s.now) } hnc
  have hcf1 : ({ s with timers := s.timers.filter fun t => decide (t.fireAt ≠ s.now) } :
      Sim).timers.filter (fun t => decide (t.kind = TimerKind.closeT)) = [] := by
    show (s.timers.filter fun t => decide (t.fireAt ≠ s.now)).filter
        (fun t => decide (t.kind = TimerKind.closeT)) = []
    rw [filter_swap, hcf]
    rfl
  show RegNone ((s.timers.filter fun t => decide (t.fireAt = s.now)).foldl (fireOne h)
      { s with timers := s.timers.filter fun t => decide (t.fireAt ≠ s.now) }) ec cl
  refine ⟨⟨?_, ?_, ?_, ?_, ?_⟩, ?_, ?_⟩
  · rw [Q.em]; exact B.flags
  · rw [Q.ecode]; exact B.ecode
  · rw [Q.core]; exact B.core
  · apply Q.boundOut
    intro u hu
    exact B.bound u (List.mem_of_mem_filter hu)
  · rw [Q.tcount, timersOf]
    have hp := title_partition s
    have ht := B.tcount
    omega
  · rw [Q.ctid]; exact hct
  · rw [Q.closeF]; exact hcf1

theorem regArmed_fireDue_notdue (h : PtyHandle) (s : Sim) (ec : Option Int)
    (i d : Nat) (cl : List (Nat × Out)) (R : RegArmed s ec i d cl) (hnd : s.now ≠ d) :
    RegArmed (fireDue h s) ec i d cl := by
  obtain ⟨B, hct, hilt, hcf, hnt⟩ := R
  have hnc : ∀ t ∈ s.timers.filter (fun t => decide (t.fireAt = s.now)),
      t.kind ≠ TimerKind.closeT := by
    intro t ht hk
    have hmem : t ∈ s.timers.filter fun t => decide (t.kind = TimerKind.closeT) :=
      List.mem_filter.mpr ⟨List.mem_of_mem_filter ht, by simp [hk]⟩
    rw [hcf] at hmem
    have ht2 : t = Timer.mk i d TimerKind.closeT := by simpa using hmem
    have hfa : t.fireAt = s.now := of_decide_eq_true (List.mem_filter.mp ht).2
    rw [ht2] at hfa
    exact hnd hfa.symm
  have Q := foldQuiet h (s.timers.filter fun t => decide (t.fireAt = s.now))
      { s with timers := s.timers.filter fun t => decide (t.fireAt ≠ s.now) } hnc
  have hcf1 : (s.timers.filter fun t => decide (t.fireAt ≠ s.now)).filter
      (fun t => decide (t.kind = TimerKind.closeT)) = [Timer.mk i d TimerKind.closeT] := by
    rw [filter_swap, hcf]
    simp [List.filter_cons, hnd, Ne.symm hnd]
  show RegArmed ((s.timers.filter fun t => decide (t.fireAt = s.now)).foldl (fireOne h)
      { s with timers := s.timers.filter fun t => decide (t.fireAt ≠ s.now) }) ec i d cl
  refine ⟨⟨?_, ?_, ?_, ?_, ?_⟩, ?_, ?_, ?_, ?_⟩
  · rw [Q.em]; exact B.flags
  · rw [Q.ecode]; exact B.ecode
  · rw [Q.core]; exact B.core
  · apply Q.boundOut
    intro u hu
    exact B.bound u (List.mem_of_mem_filter hu)
  · rw [Q.tcount, timersOf]
    have hp := title_partition s
    have ht := B.tcount
    omega
  · rw [Q.ctid]; exact hct
  · exact Nat.lt_of_lt_of_le hilt Q.nextLe
  · rw [Q.closeF]; exact hcf1
  · intro t ht hk
    rcases Q.memChar t ht with h1 | h2
    · exact hnt t (List.mem_of_mem_filter h1) hk
    · have : i < t.tid := Nat.lt_of_lt_of_le hilt h2.2
      omega

theorem regArmed_fireDue_due (h : PtyHandle) (s : Sim) (ec : Option Int)
    (i d : Nat) (cl : List (Nat × Out)) (R : RegArmed s ec i d cl) (hd : s.now = d) :
    ClosedReg (fireDue h s) (cl ++ [(d, Out.killAct), (d, Out.exitEv ec)]) := by
  obtain ⟨B, hct, hilt, hcf, hnt⟩ := R
  have hone : ((s.timers.filter fun t => decide (t.fireAt = s.now)).filter
      (fun t => decide (t.kind = TimerKind.closeT))).length = 1 := by
    rw [filter_swap, hcf]
    simp [List.filter_cons, hd]
  have hem1 : ({ s with timers := s.timers.filter fun t => decide (t.fireAt ≠ s.now) } :
      Sim).tp.em = Emitters.mk false false false false := B.flags
  have C := foldClose h (s.timers.filter fun t => decide (t.fireAt = s.now))
      { s with timers := s.timers.filter fun t => decide (t.fireAt ≠ s.now) } hone hem1
  show ClosedReg ((s.timers.filter fun t => decide (t.fireAt = s.now)).foldl (fireOne h)
      { s with timers := s.timers.filter fun t => decide (t.fireAt ≠ s.now) })
    (cl ++ [(d, Out.killAct), (d, Out.exitEv ec)])
  refine ⟨C.em, ?_, ?_⟩
  · rw [C.core]
    show coreLog s.log ++ [(s.now, Out.killAct), (s.now, Out.exitEv s.tp.exitCode)]
        = cl ++ [(d, Out.killAct), (d, Out.exitEv ec)]
    rw [B.core, hd, B.ecode]
  · rw [C.tcount, timersOf]
    have hp := title_partition s
    have ht := B.tcount
    omega

/-! ### Arming the debounce: `_queueProcessExit` on a regular state -/

theorem filter_tid_keep (i : Nat) (q : Timer → Bool) : ∀ (l : List Timer),
    (∀ t ∈ l, q t = true → t.tid ≠ i) →
    (l.filter fun t => decide (t.tid ≠ i)).filter q = l.filter q := by
  intro l
  induction l with
  | nil => intro _; rfl
  | cons x r ih =>
      intro hl
      have hr := ih fun t ht => hl t (List.mem_cons_of_mem x ht)
      by_cases hxi : x.tid = i
      · have hqf : q x = false := by
          cases hq2 : q x
          · rfl
          · exact absurd hxi (hl x (List.mem_cons_self x r) hq2)
        have h1 : ((x :: r).filter fun t => decide (t.tid ≠ i))
            = r.filter fun t => decide (t.tid ≠ i) := by
          rw [List.filter_cons, if_neg (by simp [hxi])]
        have h2 : (x :: r).filter q = r.filter q := by
          rw [List.filter_cons, if_neg (by simp [hqf])]
        rw [h1, h2, hr]
      · have h1 : ((x :: r).filter fun t => decide (t.tid ≠ i))
            = x :: (r.filter fun t => decide (t.tid ≠ i)) := by
          rw [List.filter_cons, if_pos (by simp [hxi])]
        rw [h1]
        by_cases hq : q x = true
        · have h2 : (x :: r).filter q = x :: r.filter q := by
            rw [List.filter_cons, if_pos hq]
          have h3 : (x :: (r.filter fun t => decide (t.tid ≠ i))).filter q
              = x :: ((r.filter fun t => decide (t.tid ≠ i)).filter q) := by
            rw [List.filter_cons, if_pos hq]
          rw [h2, h3, hr]
        · have hqf : q x = false := by simpa using hq
          have h2 : (x :: r).filter q = r.filter q := by
            rw [List.filter_cons, if_neg (by simp [hqf])]
          have h3 : (x :: (r.filter fun t => decide (t.tid ≠ i))).filter q
              = (r.filter fun t => decide (t.tid ≠ i)).filter q := by
            rw [List.filter_cons, if_neg (by simp [hqf])]
          rw [h2, h3, hr]

theorem regQueue_build (s : Sim) (ec : Option Int) (cl : List (Nat × Out))
    (B : RegBase s ec cl)
    (hcf : s.timers.filter (fun t => decide (t.kind = TimerKind.closeT)) = []) :
    RegArmed { (setTimeoutSim s TimerKind.closeT 250).1 with
        tp := { (setTimeoutSim s TimerKind.closeT 250).1.tp with
          closeTimeout := some (setTimeoutSim s TimerKind.closeT 250).2 } }
      ec s.nextId (s.now + 250) cl := by
  refine ⟨⟨B.flags, B.ecode, B.core, ?_, ?_⟩, rfl, Nat.lt_succ_self _, ?_, ?_⟩
  · intro u hu
    show u.tid < s.nextId + 1
    rcases List.mem_append.mp hu with h1 | h2
    · exact Nat.lt_trans (B.bound u h1) (Nat.lt_succ_self _)
    · have hu2 : u = Timer.mk s.nextId (s.now + 250) TimerKind.closeT := by simpa using h2
      rw [hu2]
      exact Nat.lt_succ_self _
  · show ((s.timers ++ [Timer.mk s.nextId (s.now + 250) TimerKind.closeT]).filter
        fun t => decide (t.kind = TimerKind.titleT)).length = 1
    rw [List.filter_append]
    have h1 : (([Timer.mk s.nextId (s.now + 250) TimerKind.closeT] : List Timer).filter
        fun t => decide (t.kind = TimerKind.titleT)) = [] := by
      simp [List.filter_cons]
    rw [h1, List.append_nil]
    exact B.tcount
  · show ((s.timers ++ [Timer.mk s.nextId (s.now + 250) TimerKind.closeT]).filter
        fun t => decide (t.kind = TimerKind.closeT)) = [Timer.mk s.nextId (s.now + 250) TimerKind.closeT]
    rw [List.filter_append, hcf]
    simp [List.filter_cons]
  · intro t ht hk
    rcases List.mem_append.mp ht with h1 | h2
    · have := B.bound t h1
      omega
    · have ht2 : t = Timer.mk s.nextId (s.now + 250) TimerKind.closeT := by simpa using h2
      rw [ht2] at hk
      simp at hk

theorem regQueue (s : Sim) (ec : Option Int) (cl : List (Nat × Out))
    (B : RegBase s ec cl)
    (hcf : s.timers.filter (fun t => decide (t.kind = TimerKind.closeT)) = [])
    (hnt : ∀ j, s.tp.closeTimeout = some j → ∀ t ∈ s.timers, t.tid ≠ j) :
    RegArmed (queueProcessExit s) ec s.nextId (s.now + 250) cl := by
  rcases hct : s.tp.closeTimeout with _ | j
  · simp only [queueProcessExit, hct]
    exact regQueue_build s ec cl B hcf
  · have hid : clearTimeoutSim s j = s := by
      unfold clearTimeoutSim
      rw [List.filter_eq_self.mpr]
      intro t ht
      simp [hnt j hct t ht]
    simp only [queueProcessExit, hct, hid]
    exact regQueue_build s ec cl B hcf

/-! ### Single-instant step lemmas on regular states -/

theorem regNone_frame (s : Sim) (ec : Option Int) (cl : List (Nat × Out)) (n : Nat)
    (R : RegNone s ec cl) : RegNone { s with now := n } ec cl := by
  obtain ⟨B, h1, h2⟩ := R
  exact ⟨⟨B.flags, B.ecode, B.core, B.bound, B.tcount⟩, h1, h2⟩

theorem regArmed_frame (s : Sim) (ec : Option Int) (i d : Nat) (cl : List (Nat × Out))
    (n : Nat) (R : RegArmed s ec i d cl) : RegArmed { s with now := n } ec i d cl := by
  obtain ⟨B, h1, h2, h3, h4⟩ := R
  exact ⟨⟨B.flags, B.ecode, B.core, B.bound, B.tcount⟩, h1, h2, h3, h4⟩

theorem closedReg_frame (s : Sim) (cl : List (Nat × Out)) (n : Nat)
    (R : ClosedReg s cl) : ClosedReg { s with now := n } cl :=
  ⟨R.em, R.core, R.tcount⟩

theorem stepQuiet_none (h : PtyHandle) (env : Nat → List EnvEvent) (s : Sim)
    (ec : Option Int) (cl : List (Nat × Out)) (R : RegNone s ec cl)
    (henv : env s.now = []) : RegNone (stepTime h env s) ec cl := by
  have he : stepTime h env s = { fireDue h s with now := (fireDue h s).now + 1 } := by
    simp only [stepTime, henv, List.foldl_nil]
  rw [he]
  exact regNone_frame _ ec cl _ (regNone_fireDue h s ec cl R)

theorem stepQuiet_armed (h : PtyHandle) (env : Nat → List EnvEvent) (s : Sim)
    (ec : Option Int) (i d : Nat) (cl : List (Nat × Out)) (R : RegArmed s ec i d cl)
    (hnd : s.now ≠ d) (henv : env s.now = []) :
    RegArmed (stepTime h env s) ec i d cl := by
  have he : stepTime h env s = { fireDue h s with now := (fireDue h s).now + 1 } := by
    simp only [stepTime, henv, List.foldl_nil]
  rw [he]
  exact regArmed_frame _ ec i d cl _ (regArmed_fireDue_notdue h s ec i d cl R hnd)

theorem stepClose (h : PtyHandle) (env : Nat → List EnvEvent) (s : Sim)
    (ec : Option Int) (i d : Nat) (cl : List (Nat × Out)) (R : RegArmed s ec i d cl)
    (hd : s.now = d) (henv : env s.now = []) :
    ClosedReg (stepTime h env s) (cl ++ [(d, Out.killAct), (d, Out.exitEv ec)]) := by
  have he : stepTime h env s = { fireDue h s with now := (fireDue h s).now + 1 } := by
    simp only [stepTime, henv, List.foldl_nil]
  rw [he]
  exact closedReg_frame _ _ _ (regArmed_fireDue_due h s ec i d cl R hd)

theorem stepShutdown (h : PtyHandle) (env : Nat → List EnvEvent) (s : Sim)
    (ec : Option Int) (cl : List (Nat × Out)) (R : RegNone s ec cl)
    (henv : env s.now = [EnvEvent.shutdownCall]) :
    RegArmed (stepTime h env s) ec (fireDue h s).nextId (s.now + 250) cl := by
  have R1 := regNone_fireDue h s ec cl R
  obtain ⟨B1, hct1, hcf1⟩ := R1
  have he : stepTime h env s
      = { queueProcessExit (fireDue h s) with now := (queueProcessExit (fireDue h s)).now + 1 } := by
    simp only [stepTime, henv, List.foldl_cons, List.foldl_nil, handleEnv]
  rw [he]
  have hq := regQueue (fireDue h s) ec cl B1 hcf1
    (fun j hj => by rw [hct1] at hj; exact absurd hj (by simp))
  rw [fireDue_now h s] at hq
  exact regArmed_frame _ ec _ _ cl _ hq

theorem stepExit (h : PtyHandle) (env : Nat → List EnvEvent) (s : Sim)
    (ec : Option Int) (c : Int) (cl : List (Nat × Out)) (R : RegNone s ec cl)
    (henv : env s.now = [EnvEvent.rawExit c]) :
    RegArmed (stepTime h env s) (some c) (fireDue h s).nextId (s.now + 250) cl := by
  have R1 := regNone_fireDue h s ec cl R
  obtain ⟨B1, hct1, hcf1⟩ := R1
  have he : stepTime h env s
      = { exitHandlerCb (fireDue h s) c with now := (exitHandlerCb (fireDue h s) c).now + 1 } := by
    simp only [stepTime, henv, List.foldl_cons, List.foldl_nil, handleEnv]
  rw [he]
  have B2 : RegBase { fireDue h s with
      tp := { (fireDue h s).tp with exitCode := some c } } (some c) cl :=
    ⟨B1.flags, rfl, B1.core, B1.bound, B1.tcount⟩
  have hq := regQueue { fireDue h s with
      tp := { (fireDue h s).tp with exitCode := some c } } (some c) cl B2 hcf1
    (fun j hj => by
      show ∀ t ∈ (fireDue h s).timers, t.tid ≠ j
      have : (fireDue h s).tp.closeTimeout = some j := hj
      rw [hct1] at this
      exact absurd this (by simp))
  rw [show ({ fireDue h s with
      tp := { (fireDue h s).tp with exitCode := some c } } : Sim).now = s.now
    from fireDue_now h s] at hq
  exact regArmed_frame _ (some c) _ _ cl _ hq

theorem stepData (h : PtyHandle) (env : Nat → List EnvEvent) (s : Sim)
    (ec : Option Int) (i d : Nat) (cl : List (Nat × Out)) (dstr : String)
    (R : RegArmed s ec i d cl) (hnd : s.now ≠ d)
    (henv : env s.now = [EnvEvent.rawData dstr]) :
    ∃ i2, RegArmed (stepTime h env s) ec i2 (s.now + 250)
      (cl ++ [(s.now, Out.dataEv dstr)]) := by
  have R1 := regArmed_fireDue_notdue h s ec i d cl R hnd
  obtain ⟨B1, hct1, hilt1, hcf1, hnt1⟩ := R1
  have he : stepTime h env s
      = { dataHandlerCb (fireDue h s) dstr with
          now := (dataHandlerCb (fireDue h s) dstr).now + 1 } := by
    simp only [stepTime, henv, List.foldl_cons, List.foldl_nil, handleEnv]
  rw [he]
  have hdf : (fireDue h s).tp.em.dataDisp = false := by rw [B1.flags]
  have hfd : fireData (fireDue h s) dstr
      = { fireDue h s with
          log := (fireDue h s).log ++ [((fireDue h s).now, Out.dataEv dstr)] } := by
    simp [fireData, hdf]
  have hct2 : (fireData (fireDue h s) dstr).tp.closeTimeout = some i := by
    rw [fireData_tp]
    exact hct1
  have hdh : dataHandlerCb (fireDue h s) dstr
      = queueProcessExit (clearTimeoutSim (fireData (fireDue h s) dstr) i) := by
    simp only [dataHandlerCb, hct2]
  rw [hdh]
  -- the cleared state
  have hnow : (fireDue h s).now = s.now := fireDue_now h s
  have B2 : RegBase (clearTimeoutSim (fireData (fireDue h s) dstr) i) ec
      (cl ++ [(s.now, Out.dataEv dstr)]) := by
    refine ⟨?_, ?_, ?_, ?_, ?_⟩
    · show (fireData (fireDue h s) dstr).tp.em = _
      rw [fireData_tp]
      exact B1.flags
    · show (fireData (fireDue h s) dstr).tp.exitCode = ec
      rw [fireData_tp]
      exact B1.ecode
    · show coreLog (fireData (fireDue h s) dstr).log = _
      rw [hfd]
      show coreLog ((fireDue h s).log ++ [((fireDue h s).now, Out.dataEv dstr)]) = _
      rw [coreLog_append, coreLog_single_core ((fireDue h s).now) (Out.dataEv dstr) rfl, B1.core, hnow]
    · intro u hu
      show u.tid < (fireData (fireDue h s) dstr).nextId
      have hu1 : u ∈ (fireData (fireDue h s) dstr).timers := List.mem_of_mem_filter hu
      have hu2 : u ∈ (fireDue h s).timers := by
        rw [hfd] at hu1
        exact hu1
      have := B1.bound u hu2
      rw [hfd]
      exact this
    · show (((fireData (fireDue h s) dstr).timers.filter
          fun t => decide (t.tid ≠ i)).filter
          fun t => decide (t.kind = TimerKind.titleT)).length = 1
      rw [hfd]
      show (((fireDue h s).timers.filter fun t => decide (t.tid ≠ i)).filter
          fun t => decide (t.kind = TimerKind.titleT)).length = 1
      rw [filter_tid_keep i _ (fireDue h s).timers ?_]
      · exact B1.tcount
      · intro t ht hq
        have hk : t.kind = TimerKind.titleT := of_decide_eq_true hq
        exact hnt1 t ht (by rw [hk]; simp)
  have hcf2 : (clearTimeoutSim (fireData (fireDue h s) dstr) i).timers.filter
      (fun t => decide (t.kind = TimerKind.closeT)) = [] := by
    show (((fireData (fireDue h s) dstr).timers.filter fun t => decide (t.tid ≠ i)).filter
        fun t => decide (t.kind = TimerKind.closeT)) = []
    rw [hfd]
    show (((fireDue h s).timers.filter fun t => decide (t.tid ≠ i)).filter
        fun t => decide (t.kind = TimerKind.closeT)) = []
    rw [filter_swap, hcf1]
    simp
  have hnt2 : ∀ j, (clearTimeoutSim (fireData (fireDue h s) dstr) i).tp.closeTimeout
      = some j → ∀ t ∈ (clearTimeoutSim (fireData (fireDue h s) dstr) i).timers,
        t.tid ≠ j := by
    intro j hj t ht
    have hji : j = i := by
      have : (fireData (fireDue h s) dstr).tp.closeTimeout = some j := hj
      rw [hct2] at this
      simpa using this.symm
    rw [hji]
    have ht1 : t ∈ ((fireData (fireDue h s) dstr).timers.filter
        fun t => decide (t.tid ≠ i)) := ht
    exact of_decide_eq_true (List.mem_filter.mp ht1).2
  have hq := regQueue (clearTimeoutSim (fireData (fireDue h s) dstr) i) ec
    (cl ++ [(s.now, Out.dataEv dstr)]) B2 hcf2 hnt2
  refine ⟨(clearTimeoutSim (fireData (fireDue h s) dstr) i).nextId, ?_⟩
  have hnow2 : (clearTimeoutSim (fireData (fireDue h s) dstr) i).now = s.now := by
    show (fireData (fireDue h s) dstr).now = s.now
    rw [fireData_now]
    exact hnow
  rw [hnow2] at hq
  exact regArmed_frame _ ec _ _ _ _ hq

/-! ### Multi-instant runs on regular states -/

theorem quietRunNone (h : PtyHandle) (env : Nat → List EnvEvent) :
    ∀ (k : Nat) (s : Sim) (ec : Option Int) (cl : List (Nat × Out)),
    RegNone s ec cl → (∀ m, s.now ≤ m → m < s.now + k → env m = []) →
    RegNone (steps h env k s) ec cl := by
  intro k
  induction k with
  | zero => intro s ec cl R _; exact R
  | succ n ih =>
      intro s ec cl R henv
      show RegNone (steps h env n (stepTime h env s)) ec cl
      apply ih
      · exact stepQuiet_none h env s ec cl R (henv s.now (Nat.le_refl _) (by omega))
      · intro m hm1 hm2
        rw [stepTime_now] at hm1 hm2
        exact henv m (by omega) (by omega)

theorem quietRunArmed (h : PtyHandle) (env : Nat → List EnvEvent) :
    ∀ (k : Nat) (s : Sim) (ec : Option Int) (i d : Nat) (cl : List (Nat × Out)),
    RegArmed s ec i d cl → s.now + k ≤ d →
    (∀ m, s.now ≤ m → m < s.now + k → env m = []) →
    RegArmed (steps h env k s) ec i d cl := by
  intro k
  induction k with
  | zero => intro s ec i d cl R _ _; exact R
  | succ n ih =>
      intro s ec i d cl R hk henv
      show RegArmed (steps h env n (stepTime h env s)) ec i d cl
      apply ih
      · exact stepQuiet_armed h env s ec i d cl R (by omega)
          (henv s.now (Nat.le_refl _) (by omega))
      · rw [stepTime_now]; omega
      · intro m hm1 hm2
        rw [stepTime_now] at hm1 hm2
        exact henv m (by omega) (by omega)

theorem armedFinishRun (h : PtyHandle) (env : Nat → List EnvEvent) (k : Nat) (s : Sim)
    (ec : Option Int) (i d : Nat) (cl : List (Nat × Out)) (R : RegArmed s ec i d cl)
    (hk : s.now + k = d) (henv : ∀ m, s.now ≤ m → m ≤ d → env m = []) :
    ClosedReg (steps h env (k + 1) s) (cl ++ [(d, Out.killAct), (d, Out.exitEv ec)]) := by
  have R1 := quietRunArmed h env k s ec i d cl R (by omega)
    (fun m h1 h2 => henv m h1 (by omega))
  have hnow : (steps h env k s).now = d := by rw [steps_now]; omega
  have hsplit : steps h env (k + 1) s = stepTime h env (steps h env k s) := by
    rw [steps_add h env k 1 s]
    rfl
  rw [hsplit]
  have henvd : env (steps h env k s).now = [] := by
    rw [hnow]
    exact henv d (by omega) (Nat.le_refl d)
  exact stepClose h env (steps h env k s) ec i d cl R1 hnow henvd

/-! ### Burst traces -/

theorem chainOk_gt : ∀ (L : List (Nat × String)) (a : Nat), chainOk a L = true →
    ∀ p ∈ L, a < p.1 := by
  intro L
  induction L with
  | nil => intro a _ p hp; exact absurd hp (List.not_mem_nil p)
  | cons x r ih =>
      intro a hc p hp
      obtain ⟨t, dstr⟩ := x
      simp only [chainOk, Bool.and_eq_true] at hc
      obtain ⟨⟨h1, h2⟩, h3⟩ := hc
      rcases List.mem_cons.mp hp with he | hm
      · rw [he]; exact of_decide_eq_true h1
      · exact Nat.lt_trans (of_decide_eq_true h1) (ih t h3 p hm)

theorem lastT_ge : ∀ (L : List (Nat × String)) (a : Nat), chainOk a L = true →
    a ≤ lastT a L := by
  intro L
  induction L with
  | nil => intro a _; exact Nat.le_refl a
  | cons x r ih =>
      intro a hc
      obtain ⟨t, dstr⟩ := x
      simp only [chainOk, Bool.and_eq_true] at hc
      obtain ⟨⟨h1, _⟩, h3⟩ := hc
      show a ≤ lastT t r
      exact Nat.le_trans (Nat.le_of_lt (of_decide_eq_true h1)) (ih t h3)

theorem burstRun (h : PtyHandle) (env : Nat → List EnvEvent) :
    ∀ (L : List (Nat × String)) (prev : Nat) (s : Sim) (ec : Option Int) (i : Nat)
      (cl : List (Nat × Out)),
    RegArmed s ec i (prev + 250) cl → s.now = prev + 1 → chainOk prev L = true →
    (∀ m, s.now ≤ m →
        env m = (L.filter fun p => decide (p.1 = m)).map fun p => EnvEvent.rawData p.2) →
    ClosedReg (steps h env (lastT prev L + 250 - prev) s)
      (cl ++ L.map (fun p => (p.1, Out.dataEv p.2))
          ++ [(lastT prev L + 250, Out.killAct), (lastT prev L + 250, Out.exitEv ec)]) := by
  intro L
  induction L with
  | nil =>
      intro prev s ec i cl R hnow hc henv
      have hcnt : lastT prev ([] : List (Nat × String)) + 250 - prev = 249 + 1 := by
        show prev + 250 - prev = 249 + 1
        omega
      rw [hcnt, List.map_nil, List.append_nil]
      have hfin := armedFinishRun h env 249 s ec i (prev + 250) cl R (by omega)
        (fun m h1 _ => by rw [henv m h1]; rfl)
      exact hfin
  | cons x r ih =>
      intro prev s ec i cl R hnow hc henv
      obtain ⟨t, dstr⟩ := x
      simp only [chainOk, Bool.and_eq_true] at hc
      obtain ⟨⟨h1, h2⟩, h3⟩ := hc
      have ht1 : prev < t := of_decide_eq_true h1
      have ht2 : t < prev + 250 := of_decide_eq_true h2
      have hgt := chainOk_gt r t h3
      have Rq := quietRunArmed h env (t - (prev + 1)) s ec i (prev + 250) cl R
        (by omega)
        (by
          intro m hm1 hm2
          rw [henv m hm1]
          rw [hnow] at hm1 hm2
          have hfe : ((t, dstr) :: r).filter (fun p => decide (p.1 = m)) = [] := by
            rw [List.filter_cons, if_neg (by simp; omega)]
            apply List.filter_eq_nil_iff.mpr
            intro p hp
            have := hgt p hp
            simp
            omega
          rw [hfe]
          rfl)
      have hnow1 : (steps h env (t - (prev + 1)) s).now = t := by
        rw [steps_now, hnow]; omega
      have henvt : env (steps h env (t - (prev + 1)) s).now = [EnvEvent.rawData dstr] := by
        rw [hnow1, henv t (by rw [hnow]; omega)]
        rw [List.filter_cons, if_pos (by simp)]
        have hfr : r.filter (fun p => decide (p.1 = t)) = [] := by
          apply List.filter_eq_nil_iff.mpr
          intro p hp
          have := hgt p hp
          simp
          omega
        rw [hfr]
        rfl
      obtain ⟨i2, Rd⟩ := stepData h env (steps h env (t - (prev + 1)) s) ec i (prev + 250)
        cl dstr Rq (by rw [hnow1]; omega) henvt
      rw [hnow1] at Rd
      have hnow2 : (stepTime h env (steps h env (t - (prev + 1)) s)).now = t + 1 := by
        rw [stepTime_now, hnow1]
      have IH := ih t (stepTime h env (steps h env (t - (prev + 1)) s)) ec i2
        (cl ++ [(t, Out.dataEv dstr)]) Rd hnow2 h3
        (by
          intro m hm
          rw [hnow2] at hm
          rw [henv m (by rw [hnow]; omega)]
          rw [List.filter_cons, if_neg (by simp; omega)])
      have hle := lastT_ge r t h3
      have harith : lastT t r + 250 - prev
          = (t - (prev + 1) + 1) + (lastT t r + 250 - t) := by omega
      show ClosedReg (steps h env (lastT t r + 250 - prev) s) _
      rw [harith, steps_add]
      have hsplit : steps h env (t - (prev + 1) + 1) s
          = stepTime h env (steps h env (t - (prev + 1)) s) := by
        rw [steps_add h env (t - (prev + 1)) 1 s]
        rfl
      rw [hsplit]
      have hpay : cl ++ [(t, Out.dataEv dstr)] ++ List.map (fun p => (p.1, Out.dataEv p.2)) r
            ++ [(lastT t r + 250, Out.killAct), (lastT t r + 250, Out.exitEv ec)]
          = cl ++ List.map (fun p => (p.1, Out.dataEv p.2)) ((t, dstr) :: r)
            ++ [(lastT prev ((t, dstr) :: r) + 250, Out.killAct),
                (lastT prev ((t, dstr) :: r) + 250, Out.exitEv ec)] := by
        show _ = cl ++ List.map (fun p => (p.1, Out.dataEv p.2)) ((t, dstr) :: r)
            ++ [(lastT t r + 250, Out.killAct), (lastT t r + 250, Out.exitEv ec)]
        simp
      exact hpay ▸ IH

/-! ### The freshly constructed session is a regular open state -/

theorem init_nextId (h : PtyHandle) : (initSim h).nextId = 3 := by
  simp [initSim, setTimeoutSim, sendProcessTitle]

theorem init_now (h : PtyHandle) : (initSim h).now = 0 := rfl

theorem regNone_init (h : PtyHandle) : RegNone (initSim h) none [] := by
  refine ⟨⟨?_, ?_, ?_, ?_, ?_⟩, ?_, ?_⟩
  · show (initSim h).tp.em = _
    simp [initSim, setTimeoutSim, sendProcessTitle]
  · show (initSim h).tp.exitCode = none
    simp [initSim, setTimeoutSim, sendProcessTitle]
  · rw [init_log]; rfl
  · rw [init_timers, init_nextId]
    intro u hu
    rcases List.mem_cons.mp hu with h1 | h2
    · rw [h1]; decide
    · have h3 : u = ⟨2, 200, TimerKind.titleT⟩ := by simpa using h2
      rw [h3]; decide
  · rw [init_timers]; decide
  · show (initSim h).tp.closeTimeout = none
    simp [initSim, setTimeoutSim, sendProcessTitle]
  · rw [init_timers]; decide

/-! ### Claim theorems: shutdown, trailing-output burst, close transition -/

/-- C6: `shutdown()` does not kill the process synchronously; it arms the
same 250-unit close debounce as a natural exit, and on a session with no
further activity exactly one exit event is delivered, precisely one
debounce window after the call, with the force-kill of the pty happening
inside the debounce's terminal action (the only kill in the core log is
the one at instant `t + 250`, immediately before the exit delivery). -/
theorem c6_shutdown_debounced (h : PtyHandle) (t : Nat) :
    coreLog (run h (shutdownEnv t) (t + 251)).log
      = [(t + 250, Out.killAct), (t + 250, Out.exitEv none)]
    ∧ countExits (run h (shutdownEnv t) (t + 251)).log = 1 := by
  have henv0 : ∀ m, (initSim h).now ≤ m → m < (initSim h).now + t →
      shutdownEnv t m = [] := by
    intro m _ hm2
    rw [init_now] at hm2
    unfold shutdownEnv
    rw [if_neg (by omega)]
  have Rq := quietRunNone h (shutdownEnv t) t (initSim h) none [] (regNone_init h) henv0
  have hnt : (steps h (shutdownEnv t) t (initSim h)).now = t := by
    rw [steps_now, init_now]
    omega
  have henvt : shutdownEnv t (steps h (shutdownEnv t) t (initSim h)).now
      = [EnvEvent.shutdownCall] := by
    rw [hnt]
    unfold shutdownEnv
    rw [if_pos rfl]
  have Rs := stepShutdown h (shutdownEnv t) (steps h (shutdownEnv t) t (initSim h))
    none [] Rq henvt
  rw [hnt] at Rs
  have hnt1 : (stepTime h (shutdownEnv t) (steps h (shutdownEnv t) t (initSim h))).now
      = t + 1 := by
    rw [stepTime_now, hnt]
  have henvq : ∀ m,
      (stepTime h (shutdownEnv t) (steps h (shutdownEnv t) t (initSim h))).now ≤ m →
      m ≤ t + 250 → shutdownEnv t m = [] := by
    intro m hm1 _
    rw [hnt1] at hm1
    unfold shutdownEnv
    rw [if_neg (by omega)]
  have Rc := armedFinishRun h (shutdownEnv t) 249 _ none _ (t + 250) [] Rs
    (by rw [hnt1]) henvq
  have hrun : run h (shutdownEnv t) (t + 251)
      = steps h (shutdownEnv t) (249 + 1)
          (stepTime h (shutdownEnv t) (steps h (shutdownEnv t) t (initSim h))) := by
    show steps h (shutdownEnv t) (t + 251) (initSim h) = _
    have ha : t + 251 = t + (1 + (249 + 1)) := by omega
    rw [ha, steps_add h (shutdownEnv t) t (1 + (249 + 1)) (initSim h),
      steps_add h (shutdownEnv t) 1 (249 + 1)]
    rfl
  rw [hrun]
  have hcore := Rc.core
  rw [List.nil_append] at hcore
  refine ⟨hcore, ?_⟩
  rw [← countExits_coreLog, hcore]
  rfl

/-- C2: after a natural exit at instant `e` with code `c`, a burst of
trailing data chunks each arriving strictly within the 250-unit debounce
window of the previous trigger is fully absorbed: every chunk is
delivered on the data stream at its arrival instant, in order, before the
exit event, and the exit (preceded by the kill) is delivered exactly one
full debounce window after the last chunk. -/
theorem c2_trailing_burst (h : PtyHandle) (e : Nat) (c : Int) (L : List (Nat × String))
    (hc : chainOk e L = true) :
    coreLog (run h (burstEnv e c L) (lastT e L + 251)).log
      = L.map (fun p => (p.1, Out.dataEv p.2))
        ++ [(lastT e L + 250, Out.killAct), (lastT e L + 250, Out.exitEv (some c))] := by
  have hgt := chainOk_gt L e hc
  have hle := lastT_ge L e hc
  have henv0 : ∀ m, (initSim h).now ≤ m → m < (initSim h).now + e →
      burstEnv e c L m = [] := by
    intro m _ hm2
    rw [init_now] at hm2
    unfold burstEnv
    rw [if_neg (by omega)]
    have hf : L.filter (fun p => decide (p.1 = m)) = [] := by
      apply List.filter_eq_nil_iff.mpr
      intro p hp
      have := hgt p hp
      simp
      omega
    rw [hf]
    rfl
  have Rq := quietRunNone h (burstEnv e c L) e (initSim h) none [] (regNone_init h) henv0
  have hne : (steps h (burstEnv e c L) e (initSim h)).now = e := by
    rw [steps_now, init_now]
    omega
  have henve : burstEnv e c L (steps h (burstEnv e c L) e (initSim h)).now
      = [EnvEvent.rawExit c] := by
    rw [hne]
    unfold burstEnv
    rw [if_pos rfl]
    have hf : L.filter (fun p => decide (p.1 = e)) = [] := by
      apply List.filter_eq_nil_iff.mpr
      intro p hp
      have := hgt p hp
      simp
      omega
    rw [hf]
    rfl
  have Rs := stepExit h (burstEnv e c L) (steps h (burstEnv e c L) e (initSim h))
    none c [] Rq henve
  rw [hne] at Rs
  have hne1 : (stepTime h (burstEnv e c L) (steps h (burstEnv e c L) e (initSim h))).now
      = e + 1 := by
    rw [stepTime_now, hne]
  have henvB : ∀ m,
      (stepTime h (burstEnv e c L) (steps h (burstEnv e c L) e (initSim h))).now ≤ m →
      burstEnv e c L m
        = (L.filter fun p => decide (p.1 = m)).map fun p => EnvEvent.rawData p.2 := by
    intro m hm
    rw [hne1] at hm
    unfold burstEnv
    rw [if_neg (by omega), List.nil_append]
  have RB := burstRun h (burstEnv e c L) L e
    (stepTime h (burstEnv e c L) (steps h (burstEnv e c L) e (initSim h)))
    (some c) _ [] Rs hne1 hc henvB
  have hrun : run h (burstEnv e c L) (lastT e L + 251)
      = steps h (burstEnv e c L) (lastT e L + 250 - e)
          (stepTime h (burstEnv e c L) (steps h (burstEnv e c L) e (initSim h))) := by
    show steps h (burstEnv e c L) (lastT e L + 251) (initSim h) = _
    have ha : lastT e L + 251 = e + (1 + (lastT e L + 250 - e)) := by omega
    rw [ha, steps_add h (burstEnv e c L) e (1 + (lastT e L + 250 - e)) (initSim h),
      steps_add h (burstEnv e c L) 1 (lastT e L + 250 - e)]
    rfl
  rw [hrun]
  have hcore := RB.core
  rw [List.nil_append] at hcore
  exact hcore

/-- Witness for C2: exit with code 5 at instant 1, trailing chunks at
instants 2 and 3; both chunks are delivered before the kill and exit at
instant 253. -/
theorem c2_witness :
    chainOk 1 burstW = true
    ∧ coreLog (run hC (burstEnv 1 5 burstW) (lastT 1 burstW + 251)).log
      = burstW.map (fun p => (p.1, Out.dataEv p.2))
        ++ [(lastT 1 burstW + 250, Out.killAct), (lastT 1 burstW + 250, Out.exitEv (some 5))] :=
  ⟨by decide, c2_trailing_burst hC 1 5 burstW (by decide)⟩

/-- C3 (amended): when the close debounce armed by a natural exit at
instant `e` elapses, the manager performs, in order: (1) the force-kill of
the pty, (2) the exit delivery carrying the recorded exit code, (3) the
disposal of all four event emitters, so no further delivery is possible.
It does not cancel the title-poll interval, which is still pending after
the transition. -/
theorem c3_amended_close_transition (h : PtyHandle) (e : Nat) (c : Int) :
    coreLog (run h (exitEnvAt e c) (e + 251)).log
      = [(e + 250, Out.killAct), (e + 250, Out.exitEv (some c))]
    ∧ (run h (exitEnvAt e c) (e + 251)).tp.em = Emitters.mk true true true true
    ∧ ((run h (exitEnvAt e c) (e + 251)).timers.filter
        fun t => decide (t.kind = TimerKind.titleT)).length = 1 := by
  have henv0 : ∀ m, (initSim h).now ≤ m → m < (initSim h).now + e →
      exitEnvAt e c m = [] := by
    intro m _ hm2
    rw [init_now] at hm2
    unfold exitEnvAt
    rw [if_neg (by omega)]
  have Rq := quietRunNone h (exitEnvAt e c) e (initSim h) none [] (regNone_init h) henv0
  have hne : (steps h (exitEnvAt e c) e (initSim h)).now = e := by
    rw [steps_now, init_now]
    omega
  have henve : exitEnvAt e c (steps h (exitEnvAt e c) e (initSim h)).now
      = [EnvEvent.rawExit c] := by
    rw [hne]
    unfold exitEnvAt
    rw [if_pos rfl]
  have Rs := stepExit h (exitEnvAt e c) (steps h (exitEnvAt e c) e (initSim h))
    none c [] Rq henve
  rw [hne] at Rs
  have hne1 : (stepTime h (exitEnvAt e c) (steps h (exitEnvAt e c) e (initSim h))).now
      = e + 1 := by
    rw [stepTime_now, hne]
  have henvq : ∀ m,
      (stepTime h (exitEnvAt e c) (steps h (exitEnvAt e c) e (initSim h))).now ≤ m →
      m ≤ e + 250 → exitEnvAt e c m = [] := by
    intro m hm1 _
    rw [hne1] at hm1
    unfold exitEnvAt
    rw [if_neg (by omega)]
  have Rc := armedFinishRun h (exitEnvAt e c) 249 _ (some c) _ (e + 250) [] Rs
    (by rw [hne1]) henvq
  have hrun : run h (exitEnvAt e c) (e + 251)
      = steps h (exitEnvAt e c) (249 + 1)
          (stepTime h (exitEnvAt e c) (steps h (exitEnvAt e c) e (initSim h))) := by
    show steps h (exitEnvAt e c) (e + 251) (initSim h) = _
    have ha : e + 251 = e + (1 + (249 + 1)) := by omega
    rw [ha, steps_add h (exitEnvAt e c) e (1 + (249 + 1)) (initSim h),
      steps_add h (exitEnvAt e c) 1 (249 + 1)]
    rfl
  rw [hrun]
  have hcore := Rc.core
  rw [List.nil_append] at hcore
  exact ⟨hcore, Rc.em, Rc.tcount⟩

end TerminalProc
